import Mathlib

/-!
Shallow embedding of `src/CombineAnimations.py` (Blender add-on
"Animation: Combine Actions for Export", class `CombineAnimationsOperator`).

Modelling conventions:
* Keyframes are `(frame, value)` pairs; frames and values are modelled as `Int`
  (the add-on only compares, copies and shifts them by integer margins, so the
  host's floats never exercise rounding behaviour in the claims under study).
* A Blender object is a tree node carrying its name, its assigned action
  (`animation_data.action`; an object without animation data is modelled as
  `action = none`), its custom-property keys, its NLA track names and its
  children.
* Python `dict`s keyed by strings/ints are modelled as insertion-ordered
  association lists with in-place overwrite (`dict_insert`).
* Host failures when creating a driver (the `try/except` at lines 302-325)
  are modelled by an oracle `fail : objName → propName → axis → Bool`.
* The float infinities used by `find_animation_range` as "no keyframe seen
  yet" markers are modelled by `Option Int` (`none` = ±inf).
-/

/-- One F-curve of a host action: data path, array index, and its keyframe
points (`(frame, value)` pairs), as read at lines 193-208. -/
structure FCurve where
  data_path : String
  array_index : Nat
  keyframe_points : List (Int × Int)
deriving DecidableEq, Repr

/-- A host action: a named collection of F-curves. -/
structure BAction where
  name : String
  fcurves : List FCurve
deriving DecidableEq, Repr

/-- A scene object: name, assigned action (none = no animation data or no
action), custom-property keys present on the object, NLA track names, and
child objects. -/
inductive BObj where
  | mk (name : String) (act : Option BAction) (props : List String)
       (nla_tracks : List String) (children : List BObj)
deriving Repr

/-- The object's name. -/
def BObj.name : BObj → String
  | .mk n _ _ _ _ => n

/-- The object's assigned action (`animation_data.action`). -/
def BObj.act : BObj → Option BAction
  | .mk _ a _ _ _ => a

/-- The custom-property keys already present on the object. -/
def BObj.props : BObj → List String
  | .mk _ _ p _ _ => p

/-- The object's NLA track names. -/
def BObj.nla_tracks : BObj → List String
  | .mk _ _ _ t _ => t

/-- The object's children. -/
def BObj.children : BObj → List BObj
  | .mk _ _ _ _ c => c

mutual
/-- `count_descendants` (lines 390-395): `len(obj.children)` plus the
recursive count for every child. -/
def count_descendants : BObj → Nat
  | .mk _ _ _ _ cs => cs.length + count_desc_list cs
/-- Summed descendant counts of a list of children. -/
def count_desc_list : List BObj → Nat
  | [] => 0
  | c :: cs => count_descendants c + count_desc_list cs
end

mutual
/-- `get_hierarchy_objects` (lines 397-402): the root followed by the
recursively collected subtrees of each child, in order. -/
def get_hierarchy_objects : BObj → List BObj
  | .mk n a p t cs => .mk n a p t cs :: hier_list cs
/-- Concatenated hierarchies of a list of children. -/
def hier_list : List BObj → List BObj
  | [] => []
  | c :: cs => get_hierarchy_objects c ++ hier_list cs
end

/-- Reachability along child links: `Reaches x y` holds when `y` lies in the
subtree rooted at `x` (zero or more child steps). -/
inductive Reaches : BObj → BObj → Prop where
  | refl (x : BObj) : Reaches x x
  | step {x c y : BObj} : c ∈ x.children → Reaches c y → Reaches x y

/-- Python's substring test `pat in s` on character lists: `pat` is a prefix
of some suffix of `s`. -/
def char_infix : List Char → List Char → Bool
  | pat, [] => pat.isEmpty
  | pat, c :: cs => pat.isPrefixOf (c :: cs) || char_infix pat cs

/-- Python's `str.lower()`, as a character-wise map. -/
def to_lower_str (s : String) : String := ⟨s.data.map Char.toLower⟩

/-- Python's `str.startswith(pat)`. -/
def starts_with (pat s : String) : Bool := pat.data.isPrefixOf s.data

/-- The first name heuristic of `find_root_object` (line 369):
`"root" in name.lower() or name.lower().startswith(("player", "character",
"rig"))`. -/
def name_matches_primary (n : String) : Bool :=
  char_infix "root".data (to_lower_str n).data
    || starts_with "player" (to_lower_str n)
    || starts_with "character" (to_lower_str n)
    || starts_with "rig" (to_lower_str n)

/-- The second name heuristic of `find_root_object` (line 374):
`"visual" in name.lower()`. -/
def name_matches_visual (n : String) : Bool :=
  char_infix "visual".data (to_lower_str n).data

/-- The fallback loop of `find_root_object` (lines 378-388): scan the
objects keeping the first one whose descendant count strictly exceeds the
best seen so far, starting from `max_children = -1`, `root_obj = None`. -/
def max_desc_loop : List BObj → Int → Option BObj → Option BObj
  | [], _, best => best
  | o :: rest, maxc, best =>
    if (count_descendants o : Int) > maxc then
      max_desc_loop rest (count_descendants o) (some o)
    else
      max_desc_loop rest maxc best

/-- `find_root_object` (lines 365-388): first object matching the primary
name heuristic, else first containing "visual", else the descendant-count
fallback. -/
def find_root_object (objects : List BObj) : Option BObj :=
  match objects.find? (fun o => name_matches_primary o.name) with
  | some o => some o
  | none =>
    match objects.find? (fun o => name_matches_visual o.name) with
    | some o => some o
    | none => max_desc_loop objects (-1) none

/-- `min(acc, x)` where `acc` may still be the initial `float('inf')`. -/
def optMin (acc : Option Int) (x : Int) : Option Int :=
  match acc with
  | none => some x
  | some a => some (min a x)

/-- `max(acc, x)` where `acc` may still be the initial `float('-inf')`. -/
def optMax (acc : Option Int) (x : Int) : Option Int :=
  match acc with
  | none => some x
  | some a => some (max a x)

/-- `find_animation_range` (lines 350-363): fold over every F-curve of every
object that has an action, taking the first keyframe's frame into the
minimum and the last keyframe's frame into the maximum, skipping empty
curves. `none` stands for the untouched `float('±inf')`. -/
def find_animation_range (objects : List BObj) : Option Int × Option Int :=
  objects.foldl
    (fun st o =>
      match o.act with
      | none => st
      | some act =>
        act.fcurves.foldl
          (fun st fc =>
            match fc.keyframe_points with
            | [] => st
            | k :: rest =>
              (optMin st.1 k.1, optMax st.2 (rest.getLast?.getD k).1))
          st)
    (none, none)

/-- All keyframe frames of all curves of all objects that have an action
(the domain over which the spec's "global min/max frame" ranges). -/
def allFrames (objects : List BObj) : List Int :=
  objects.flatMap (fun o =>
    match o.act with
    | none => []
    | some act => act.fcurves.flatMap (fun fc => fc.keyframe_points.map Prod.fst))

/-- Keyframe lists. -/
abbrev KFs := List (Int × Int)

/-- Inner `dict` of `animation_data`: axis index → keyframes. -/
abbrev AxisDict := List (Nat × KFs)

/-- Middle `dict` of `animation_data`: property path → axis dict. -/
abbrev PropDict := List (String × AxisDict)

/-- Outer `dict` of `animation_data`: object name → property dict. -/
abbrev AnimDict := List (String × PropDict)

/-- Python `dict` assignment `d[k] = v` on an insertion-ordered association
list: overwrite in place if the key exists, else append. -/
def dict_insert {κ β : Type} [DecidableEq κ] : List (κ × β) → κ → β → List (κ × β)
  | [], k, v => [(k, v)]
  | (k1, v1) :: rest, k, v =>
    if k = k1 then (k, v) :: rest else (k1, v1) :: dict_insert rest k v

/-- Python `dict` lookup `d.get(k)`. -/
def dict_lookup {κ β : Type} [DecidableEq κ] : List (κ × β) → κ → Option β
  | [], _ => none
  | (k1, v1) :: rest, k => if k = k1 then some v1 else dict_lookup rest k

/-- Lines 192-208: build one object's `obj_data` dict: for each F-curve,
`obj_data[data_path][array_index] = keyframes`. -/
def collect_obj_data (fcurves : List FCurve) : PropDict :=
  fcurves.foldl
    (fun d fc =>
      dict_insert d fc.data_path
        (dict_insert ((dict_lookup d fc.data_path).getD []) fc.array_index
          fc.keyframe_points))
    []

/-- Lines 184-212: build `animation_data`: for each animated object with an
action, collect its `obj_data`; only nonempty dicts are stored, keyed by the
object's name. -/
def collect_animation_data (objs : List BObj) : AnimDict :=
  objs.foldl
    (fun ad o =>
      match o.act with
      | none => ad
      | some act =>
        let od := collect_obj_data act.fcurves
        if od.isEmpty then ad else dict_insert ad o.name od)
    []

/-- Flatten `animation_data` into its `(object name, property, axis,
keyframes)` channels, in iteration order. -/
def channels_of (ad : AnimDict) : List (String × String × Nat × KFs) :=
  ad.flatMap (fun oe =>
    oe.2.flatMap (fun pe => pe.2.map (fun ae => (oe.1, pe.1, ae.1, ae.2))))

/-- The transform properties treated specially throughout the operator:
`["location", "rotation_euler", "scale"]`. -/
def transform_props : List String := ["location", "rotation_euler", "scale"]

/-- Replace every occurrence of character `a` by `b` (Python
`s.replace(a, b)` with a single-character pattern), as a map over the
string's characters. -/
def replace_char (a b : Char) (s : String) : String :=
  ⟨s.data.map (fun c => if c = a then b else c)⟩

/-- Line 239/282: `obj_name.replace('.', '_').replace(' ', '_')`. -/
def clean_name (n : String) : String :=
  replace_char ' ' '_' (replace_char '.' '_' n)

/-- Line 243/291: `["x", "y", "z"][axis]`. The host only yields indices 0-2
for the transform properties (Python would raise `IndexError` otherwise);
theorems restrict to `axis < 3`, where this total version agrees. -/
def component (axis : Nat) : String :=
  match axis with
  | 0 => "x"
  | 1 => "y"
  | _ => "z"

/-- Lines 247-252 / 294-299: the synthesized custom-property key
`<clean>_loc_<c>` / `<clean>_rot_<c>` / `<clean>_scale_<c>`. -/
def prop_key (clean prop : String) (axis : Nat) : String :=
  if prop = "location" then clean ++ "_loc_" ++ component axis
  else if prop = "rotation_euler" then clean ++ "_rot_" ++ component axis
  else clean ++ "_scale_" ++ component axis

/-- Line 262/316: the data path of a custom property, `["<key>"]` with
literal quotes. -/
def quote_path (k : String) : String := "[\"" ++ k ++ "\"]"

/-- The host's `keyframe_points.insert(frame, value)`: keep the points
sorted by frame, replacing an existing point at the same frame. -/
def insertKF : KFs → Int × Int → KFs
  | [], k => [k]
  | (f, v) :: rest, k =>
    if k.1 < f then k :: (f, v) :: rest
    else if k.1 = f then k :: rest
    else (f, v) :: insertKF rest k

/-- Lines 234-235 / 265-266: insert all collected keyframes into a fresh
F-curve, one `insert` call per `(frame, value)` pair. -/
def fold_insert (kfs : KFs) : KFs := kfs.foldl insertKF []

/-- State threaded through the first pass: the root's custom-property keys,
the keys newly created (`custom_props_to_create`), and the master action's
F-curves. -/
structure FPState where
  root_props : List String
  created : List String
  fcurves : List FCurve
deriving DecidableEq, Repr

/-- Lines 230-266, body of the first pass for a single channel: a root-owned
transform channel becomes a direct F-curve; any other transform channel
creates (if needed) a custom property on the root and an F-curve on its
quoted data path (index defaulting to 0); other channels are skipped. -/
def first_pass_channel (rootName obj_name prop : String) (axis : Nat)
    (kfs : KFs) (st : FPState) : FPState :=
  if obj_name = rootName ∧ prop ∈ transform_props then
    { st with fcurves := st.fcurves ++ [⟨prop, axis, fold_insert kfs⟩] }
  else if prop ∈ transform_props then
    let key := prop_key (clean_name obj_name) prop axis
    let st1 :=
      if key ∈ st.root_props then st
      else { st with root_props := st.root_props ++ [key],
                     created := st.created ++ [key] }
    { st1 with fcurves := st1.fcurves ++ [⟨quote_path key, 0, fold_insert kfs⟩] }
  else st

/-- Lines 226-266: the first pass over all objects, properties and axes of
`animation_data`. -/
def first_pass (rootName : String) (ad : AnimDict) (st0 : FPState) : FPState :=
  ad.foldl
    (fun st oe =>
      oe.2.foldl
        (fun st pe =>
          pe.2.foldl (fun st ae => first_pass_channel rootName oe.1 pe.1 ae.1 ae.2 st)
            st)
        st)
    st0

/-- A driver created by the second pass: owner object, driven data path and
array index, driver expression, and the variable's target data path on the
root. -/
structure Driver where
  obj_name : String
  data_path : String
  array_index : Nat
  expr : String
  target_path : String
deriving DecidableEq, Repr

/-- A warning reported by the `except` branch at line 325, identified by the
channel it concerns. -/
abbrev Warn := String × String × Nat

/-- Lines 268-325: the second pass: skip the root and objects missing from
`bpy.data.objects`; for each transform channel either create a driver
reading the synthesized key (expression `"value"`) or, if the host call
fails, record a warning and continue. -/
def second_pass (rootName : String) (data_objects : List String)
    (fail : String → String → Nat → Bool) (ad : AnimDict) :
    List Driver × List Warn :=
  ad.foldl
    (fun st oe =>
      if oe.1 = rootName then st
      else if oe.1 ∉ data_objects then st
      else
        oe.2.foldl
          (fun st pe =>
            if pe.1 ∉ transform_props then st
            else
              pe.2.foldl
                (fun st ae =>
                  let key := prop_key (clean_name oe.1) pe.1 ae.1
                  if fail oe.1 pe.1 ae.1 then
                    (st.1, st.2 ++ [(oe.1, pe.1, ae.1)])
                  else
                    (st.1 ++ [⟨oe.1, pe.1, ae.1, "value", quote_path key⟩], st.2))
                st)
          st)
    ([], [])

/-- Operator return statuses. -/
inductive Status where
  | CANCELLED
  | FINISHED
deriving DecidableEq, Repr

/-- The animation-relevant state of one object after the operation: name,
assigned action (by name), and NLA track names. -/
structure ObjState where
  name : String
  act : Option String
  nla_tracks : List String
deriving DecidableEq, Repr

/-- Line 219 (the root is assigned the master action) combined with lines
330-341 (when originals are not kept, each non-root object that still has an
action loses its NLA tracks and its action). -/
def obj_state_after (keep : Bool) (rootName master : String) (o : BObj) : ObjState :=
  let act1 : Option String :=
    if o.name = rootName then some master else o.act.map BAction.name
  if keep = false ∧ o.name ≠ rootName ∧ o.act.isSome then
    ⟨o.name, none, []⟩
  else
    ⟨o.name, act1, o.nla_tracks⟩

/-- Everything `create_standalone_action` produces or mutates. -/
structure CSAResult where
  master_fcurves : List FCurve
  created_props : List String
  root_props_after : List String
  drivers : List Driver
  warnings : List Warn
  objects_after : List ObjState
  root_act_after : String
  frame_current : Int
  status : Status
deriving DecidableEq, Repr

/-- `create_standalone_action` (lines 167-348): collect `animation_data`,
run the two passes, update the objects' actions/NLA state, restore the
current frame (line 344), and return `FINISHED`. -/
def create_standalone_action (master_name : String) (keep : Bool)
    (fail : String → String → Nat → Bool) (data_objects : List String)
    (scene_frame : Int) (root : BObj) (animated : List BObj) : CSAResult :=
  let ad := collect_animation_data animated
  let fp := first_pass root.name ad ⟨root.props, [], []⟩
  let sp := second_pass root.name data_objects fail ad
  { master_fcurves := fp.fcurves
    created_props := fp.created
    root_props_after := fp.root_props
    drivers := sp.1
    warnings := sp.2
    objects_after := animated.map (obj_state_after keep root.name master_name)
    root_act_after := master_name
    frame_current := scene_frame
    status := .FINISHED }

/-- The editor/scene state `execute` leaves behind, along with its status. -/
structure ExecResult where
  status : Status
  frame_start : Int
  frame_end : Int
  selected_names : List String
  active : Option String
  area : String
  frame_current : Int
  actions_created : List String
deriving DecidableEq, Repr

/-- An early `return CANCELLED` (lines 87, 106, 124): nothing has been
created and no scene state has been touched except possibly the active
object. -/
def exec_cancelled (selected : List BObj) (active : Option String)
    (area : String) (scene_start scene_end scene_frame : Int) : ExecResult :=
  { status := .CANCELLED, frame_start := scene_start, frame_end := scene_end,
    selected_names := selected.map BObj.name, active := active, area := area,
    frame_current := scene_frame, actions_created := [] }

/-- `execute` (lines 72-165): cancel on empty selection, missing root, or no
animated object in the hierarchy; otherwise set the scene frame range from
`find_animation_range` (falling back to the existing range, else applying
the margin with the start clamped at 1), run `create_standalone_action`,
and restore selection, active object and editor area. -/
def execute (selected : List BObj) (data_objects : List String)
    (orig_active : Option String) (orig_area : String)
    (scene_start scene_end scene_frame : Int) (frame_margin : Nat)
    (keep : Bool) (master_name : String)
    (fail : String → String → Nat → Bool) : ExecResult :=
  match selected with
  | [] => exec_cancelled selected orig_active orig_area scene_start scene_end scene_frame
  | s0 :: _ =>
    let active1 := match orig_active with | none => some s0.name | some a => some a
    match find_root_object selected with
    | none => exec_cancelled selected active1 orig_area scene_start scene_end scene_frame
    | some root =>
      let animated := (get_hierarchy_objects root).filter (fun o => o.act.isSome)
      if animated.isEmpty then
        exec_cancelled selected active1 orig_area scene_start scene_end scene_frame
      else
        let fsfe : Int × Int :=
          match find_animation_range animated with
          | (some m, some M) => (max 1 (m - (frame_margin : Int)), M + (frame_margin : Int))
          | _ => (scene_start, scene_end)
        let c := create_standalone_action master_name keep fail data_objects
          scene_frame root animated
        { status := c.status
          frame_start := fsfe.1
          frame_end := fsfe.2
          selected_names := (selected.map BObj.name).filter
            (fun n => data_objects.contains n)
          active :=
            match orig_active with
            | some a => if data_objects.contains a then some a else active1
            | none => active1
          area := orig_area
          frame_current := c.frame_current
          actions_created := [master_name] }

/-- What the first pass produces for a single channel (specification-side
restatement used to characterize `first_pass`): a direct F-curve for
root-owned transform channels, a quoted custom-property F-curve for other
transform channels, nothing otherwise. -/
def fcurve_of_channel (rootName : String) (c : String × String × Nat × KFs) :
    Option FCurve :=
  if c.1 = rootName ∧ c.2.1 ∈ transform_props then
    some ⟨c.2.1, c.2.2.1, fold_insert c.2.2.2⟩
  else if c.2.1 ∈ transform_props then
    some ⟨quote_path (prop_key (clean_name c.1) c.2.1 c.2.2.1), 0,
          fold_insert c.2.2.2⟩
  else none

/-- What the second pass produces for a single channel when the host call
succeeds: a driver for every transform channel of a non-root object present
in `bpy.data.objects`. -/
def driver_of_channel (rootName : String) (data_objects : List String)
    (fail : String → String → Nat → Bool) (c : String × String × Nat × KFs) :
    Option Driver :=
  if c.1 = rootName then none
  else if c.1 ∉ data_objects then none
  else if c.2.1 ∉ transform_props then none
  else if fail c.1 c.2.1 c.2.2.1 then none
  else some ⟨c.1, c.2.1, c.2.2.1, "value",
             quote_path (prop_key (clean_name c.1) c.2.1 c.2.2.1)⟩

/-- What the second pass reports for a single channel when the host call
fails: one warning naming the channel. -/
def warn_of_channel (rootName : String) (data_objects : List String)
    (fail : String → String → Nat → Bool) (c : String × String × Nat × KFs) :
    Option Warn :=
  if c.1 = rootName then none
  else if c.1 ∉ data_objects then none
  else if c.2.1 ∉ transform_props then none
  else if fail c.1 c.2.1 c.2.2.1 then some (c.1, c.2.1, c.2.2.1)
  else none

/-- Strip a fixed leading pattern from a character list, returning the
remainder on success. -/
def stripChars : List Char → List Char → Option (List Char)
  | [], s => some s
  | _ :: _, [] => none
  | p :: ps, c :: cs => if c = p then stripChars ps cs else none

/-- Strip `sfx` from the end of `s` (working on reversed character lists). -/
def strip_sfx (sfx s : String) : Option String :=
  (stripChars sfx.data.reverse s.data.reverse).map (fun r => ⟨r.reverse⟩)

/-- Parse a synthesized custom-property key back into its
`(clean object name, property, axis)` components, by testing each of the
nine possible suffixes. -/
def decode_key (s : String) : Option (String × String × Nat) :=
  ((strip_sfx "_loc_x" s).map (fun c => (c, "location", 0))) <|>
  ((strip_sfx "_loc_y" s).map (fun c => (c, "location", 1))) <|>
  ((strip_sfx "_loc_z" s).map (fun c => (c, "location", 2))) <|>
  ((strip_sfx "_rot_x" s).map (fun c => (c, "rotation_euler", 0))) <|>
  ((strip_sfx "_rot_y" s).map (fun c => (c, "rotation_euler", 1))) <|>
  ((strip_sfx "_rot_z" s).map (fun c => (c, "rotation_euler", 2))) <|>
  ((strip_sfx "_scale_x" s).map (fun c => (c, "scale", 0))) <|>
  ((strip_sfx "_scale_y" s).map (fun c => (c, "scale", 1))) <|>
  ((strip_sfx "_scale_z" s).map (fun c => (c, "scale", 2)))

/-- Witness scene: the root's own action. -/
def w_act_root : BAction := ⟨"RootAct", [⟨"location", 0, [(1, 10), (5, 20)]⟩]⟩

/-- Witness scene: a child action with a transform channel and a
non-transform channel. -/
def w_act_arm : BAction :=
  ⟨"ArmAct", [⟨"location", 2, [(3, 7)]⟩, ⟨"hide_render", 0, [(2, 1)]⟩]⟩

/-- Witness scene: a second child action. -/
def w_act_leg : BAction := ⟨"LegAct", [⟨"scale", 1, [(2, 4), (6, 9)]⟩]⟩

/-- Witness scene: first child object. -/
def w_arm : BObj := .mk "Arm" (some w_act_arm) [] ["TrackA"] []

/-- Witness scene: second child object. -/
def w_leg : BObj := .mk "Leg" (some w_act_leg) [] [] []

/-- Witness scene: root object (name matches the "root" heuristic). -/
def w_root : BObj := .mk "PlayerRoot" (some w_act_root) [] [] [w_arm, w_leg]

/-- Witness scene: the names present in `bpy.data.objects`. -/
def w_data : List String := ["PlayerRoot", "Arm", "Leg"]

/-- Counterexample scene for C1: an animated child whose only channel is a
non-transform property. -/
def cx_act : BAction := ⟨"CubeAct", [⟨"hide_render", 0, [(1, 1)]⟩]⟩

/-- Counterexample scene for C1: the child carrying `cx_act`. -/
def cx_cube : BObj := .mk "Cube" (some cx_act) [] [] []

/-- Counterexample scene for C1: a root with no action of its own. -/
def cx_root : BObj := .mk "Root" none [] [] [cx_cube]

/-- The effect of the second pass on a single flattened channel: the same
guards as `second_pass`, applied channel by channel. -/
def second_pass_channel (rootName : String) (data_objects : List String)
    (fail : String → String → Nat → Bool)
    (st : List Driver × List Warn) (c : String × String × Nat × KFs) :
    List Driver × List Warn :=
  if c.1 = rootName then st
  else if c.1 ∉ data_objects then st
  else if c.2.1 ∉ transform_props then st
  else if fail c.1 c.2.1 c.2.2.1 then (st.1, st.2 ++ [(c.1, c.2.1, c.2.2.1)])
  else (st.1 ++ [⟨c.1, c.2.1, c.2.2.1, "value",
         quote_path (prop_key (clean_name c.1) c.2.1 c.2.2.1)⟩], st.2)

/-! ## Association-list (Python dict) lemmas -/

theorem dict_lookup_insert_self {κ β : Type} [DecidableEq κ]
    (d : List (κ × β)) (k : κ) (v : β) :
    dict_lookup (dict_insert d k v) k = some v := by
  induction d with
  | nil => simp [dict_insert, dict_lookup]
  | cons e rest ih =>
    obtain ⟨k1, v1⟩ := e
    by_cases h : k = k1
    · simp [dict_insert, h, dict_lookup]
    · simp [dict_insert, h, dict_lookup, ih]

theorem dict_lookup_insert_ne {κ β : Type} [DecidableEq κ]
    (d : List (κ × β)) (k k' : κ) (v : β) (hne : k' ≠ k) :
    dict_lookup (dict_insert d k v) k' = dict_lookup d k' := by
  induction d with
  | nil => simp [dict_insert, dict_lookup, hne]
  | cons e rest ih =>
    obtain ⟨k1, v1⟩ := e
    by_cases h : k = k1
    · subst h
      simp [dict_insert, dict_lookup, hne]
    · by_cases h' : k' = k1
      · simp [dict_insert, h, dict_lookup, h']
      · simp [dict_insert, h, dict_lookup, h', ih]

theorem mem_of_dict_lookup {κ β : Type} [DecidableEq κ]
    {d : List (κ × β)} {k : κ} {v : β} (h : dict_lookup d k = some v) :
    (k, v) ∈ d := by
  induction d with
  | nil => simp [dict_lookup] at h
  | cons e rest ih =>
    obtain ⟨k1, v1⟩ := e
    by_cases hk : k = k1
    · subst hk
      simp [dict_lookup] at h
      simp [h]
    · simp [dict_lookup, hk] at h
      exact List.mem_cons_of_mem _ (ih h)

theorem dict_insert_ne_nil {κ β : Type} [DecidableEq κ]
    (d : List (κ × β)) (k : κ) (v : β) : dict_insert d k v ≠ [] := by
  cases d with
  | nil => simp [dict_insert]
  | cons e rest =>
    obtain ⟨k1, v1⟩ := e
    by_cases h : k = k1 <;> simp [dict_insert, h]

/-! ## Collection-phase lemmas (lines 184-212) -/

/-- The property "the channel `(p, a, k)` is recorded in the object dict". -/
def has_channel (d : PropDict) (p : String) (a : Nat) (kf : KFs) : Prop :=
  ∃ axes, dict_lookup d p = some axes ∧ (a, kf) ∈ axes

theorem has_channel_step (d : PropDict) (fc : FCurve) :
    has_channel
      (dict_insert d fc.data_path
        (dict_insert ((dict_lookup d fc.data_path).getD []) fc.array_index
          fc.keyframe_points))
      fc.data_path fc.array_index fc.keyframe_points := by
  refine ⟨_, dict_lookup_insert_self _ _ _, ?_⟩
  -- membership of the freshly inserted axis entry
  generalize (dict_lookup d fc.data_path).getD [] = axes
  induction axes with
  | nil => simp [dict_insert]
  | cons e rest ih =>
    obtain ⟨a1, v1⟩ := e
    by_cases h : fc.array_index = a1
    · simp [dict_insert, h]
    · simp [dict_insert, h]
      exact ih

theorem has_channel_preserved (d : PropDict) (fc : FCurve) (p : String)
    (a : Nat) (kf : KFs) (hne : (p, a) ≠ (fc.data_path, fc.array_index))
    (h : has_channel d p a kf) :
    has_channel
      (dict_insert d fc.data_path
        (dict_insert ((dict_lookup d fc.data_path).getD []) fc.array_index
          fc.keyframe_points))
      p a kf := by
  obtain ⟨axes, hl, hm⟩ := h
  by_cases hp : p = fc.data_path
  · subst hp
    have ha : a ≠ fc.array_index := by
      intro h; exact hne (by simp [h])
    refine ⟨_, dict_lookup_insert_self _ _ _, ?_⟩
    rw [hl]
    simp only [Option.getD_some]
    -- (a, kf) survives an insert at a different axis
    clear hl
    induction axes with
    | nil => simp at hm
    | cons e rest ih =>
      obtain ⟨a1, v1⟩ := e
      rcases List.mem_cons.mp hm with h1 | h1
      · obtain ⟨rfl, rfl⟩ := Prod.mk.injEq .. ▸ h1
        by_cases hh : fc.array_index = a
        · exact absurd hh.symm ha
        · simp [dict_insert, hh]
      · by_cases hh : fc.array_index = a1
        · simp [dict_insert, hh]
          right
          exact h1
        · simp [dict_insert, hh]
          right
          exact ih h1
  · exact ⟨axes, by rw [dict_lookup_insert_ne _ _ _ _ hp]; exact hl, hm⟩

theorem has_channel_foldl_preserved (p : String) (a : Nat) (kf : KFs) :
    ∀ (l : List FCurve) (d : PropDict),
      (∀ f ∈ l, (p, a) ≠ (f.data_path, f.array_index)) →
      has_channel d p a kf →
      has_channel
        (l.foldl
          (fun d fc =>
            dict_insert d fc.data_path
              (dict_insert ((dict_lookup d fc.data_path).getD []) fc.array_index
                fc.keyframe_points))
          d)
        p a kf := by
  intro l
  induction l with
  | nil => intro d _ h; simpa using h
  | cons g rest ih =>
    intro d hne h
    rw [List.foldl_cons]
    exact ih _ (fun f hf => hne f (List.mem_cons_of_mem _ hf))
      (has_channel_preserved d g p a kf (hne g (List.mem_cons_self _ _)) h)

theorem collect_obj_data_has_channel (fcurves : List FCurve) (fc : FCurve)
    (hmem : fc ∈ fcurves)
    (hnodup : (fcurves.map (fun f => (f.data_path, f.array_index))).Nodup) :
    has_channel (collect_obj_data fcurves) fc.data_path fc.array_index
      fc.keyframe_points := by
  obtain ⟨l1, l2, rfl⟩ := List.append_of_mem hmem
  have hnotin : ∀ f ∈ l2,
      (fc.data_path, fc.array_index) ≠ (f.data_path, f.array_index) := by
    intro f hf heq
    rw [List.map_append] at hnodup
    have h2 := (List.nodup_append.mp hnodup).2.1
    rw [List.map_cons] at h2
    exact (List.nodup_cons.mp h2).1 (heq ▸ List.mem_map_of_mem _ hf)
  unfold collect_obj_data
  rw [List.foldl_append, List.foldl_cons]
  exact has_channel_foldl_preserved _ _ _ l2 _ hnotin (has_channel_step _ fc)

theorem collect_obj_data_foldl_ne_nil :
    ∀ (l : List FCurve) (d : PropDict), d ≠ [] →
      l.foldl
        (fun d fc =>
          dict_insert d fc.data_path
            (dict_insert ((dict_lookup d fc.data_path).getD []) fc.array_index
              fc.keyframe_points))
        d ≠ [] := by
  intro l
  induction l with
  | nil => intro d h; simpa using h
  | cons g rest ih =>
    intro d _
    rw [List.foldl_cons]
    exact ih _ (dict_insert_ne_nil _ _ _)

theorem collect_obj_data_ne_nil (fcurves : List FCurve) (h : fcurves ≠ []) :
    collect_obj_data fcurves ≠ [] := by
  cases fcurves with
  | nil => exact absurd rfl h
  | cons g rest =>
    unfold collect_obj_data
    rw [List.foldl_cons]
    exact collect_obj_data_foldl_ne_nil rest _ (dict_insert_ne_nil _ _ _)

theorem collect_animation_data_lookup_preserved (n : String) :
    ∀ (l : List BObj) (ad : AnimDict),
      (∀ o' ∈ l, o'.name ≠ n) →
      dict_lookup
        (l.foldl
          (fun ad o =>
            match o.act with
            | none => ad
            | some act =>
              let od := collect_obj_data act.fcurves
              if od.isEmpty then ad else dict_insert ad o.name od)
          ad) n = dict_lookup ad n := by
  intro l
  induction l with
  | nil => intro ad _; rfl
  | cons o rest ih =>
    intro ad hne
    rw [List.foldl_cons]
    rw [ih _ (fun o' h' => hne o' (List.mem_cons_of_mem _ h'))]
    cases hact : o.act with
    | none => simp
    | some act =>
      simp only
      split
      · rfl
      · exact dict_lookup_insert_ne _ _ _ _ (fun h => hne o (List.mem_cons_self _ _) h.symm)

theorem collect_animation_data_lookup (objs : List BObj) (o : BObj)
    (act : BAction) (ho : o ∈ objs) (hact : o.act = some act)
    (hfc : act.fcurves ≠ []) (hnames : (objs.map BObj.name).Nodup) :
    dict_lookup (collect_animation_data objs) o.name
      = some (collect_obj_data act.fcurves) := by
  obtain ⟨l1, l2, rfl⟩ := List.append_of_mem ho
  have hnotin : ∀ o' ∈ l2, o'.name ≠ o.name := by
    intro o' h' heq
    rw [List.map_append] at hnames
    have h2 := (List.nodup_append.mp hnames).2.1
    rw [List.map_cons] at h2
    exact (List.nodup_cons.mp h2).1 (heq ▸ List.mem_map_of_mem _ h')
  unfold collect_animation_data
  rw [List.foldl_append, List.foldl_cons]
  rw [collect_animation_data_lookup_preserved _ l2 _ hnotin]
  generalize (List.foldl _ ([] : AnimDict) l1) = ad
  rw [hact]
  simp only
  rw [if_neg (by simpa using collect_obj_data_ne_nil _ hfc)]
  exact dict_lookup_insert_self _ _ _

theorem mem_channels_of {ad : AnimDict} {od : PropDict} {axes : AxisDict}
    {n p : String} {a : Nat} {kf : KFs}
    (h1 : (n, od) ∈ ad) (h2 : (p, axes) ∈ od) (h3 : (a, kf) ∈ axes) :
    (n, p, a, kf) ∈ channels_of ad := by
  simp only [channels_of, List.mem_flatMap, List.mem_map]
  exact ⟨(n, od), h1, (p, axes), h2, (a, kf), h3, rfl⟩

/-- Bundled: an F-curve of an animated object yields its channel in
`channels_of (collect_animation_data objs)`. -/
theorem channel_of_fcurve (objs : List BObj) (o : BObj) (act : BAction)
    (fc : FCurve) (ho : o ∈ objs) (hact : o.act = some act)
    (hfc : fc ∈ act.fcurves)
    (hnames : (objs.map BObj.name).Nodup)
    (hkeys : (act.fcurves.map (fun f => (f.data_path, f.array_index))).Nodup) :
    (o.name, fc.data_path, fc.array_index, fc.keyframe_points)
      ∈ channels_of (collect_animation_data objs) := by
  have hne : act.fcurves ≠ [] := by
    intro h; rw [h] at hfc; simp at hfc
  have hlk := collect_animation_data_lookup objs o act ho hact hne hnames
  have hch := collect_obj_data_has_channel act.fcurves fc hfc hkeys
  obtain ⟨axes, hl2, hm2⟩ := hch
  exact mem_channels_of (mem_of_dict_lookup hlk) (mem_of_dict_lookup hl2) hm2

/-! ## Fold helper lemmas -/

theorem foldl_flatMap {α β γ : Type} (g : α → List β) (f : γ → β → γ) :
    ∀ (l : List α) (init : γ),
      (l.flatMap g).foldl f init
        = l.foldl (fun st x => (g x).foldl f st) init := by
  intro l
  induction l with
  | nil => intro init; rfl
  | cons x xs ih =>
    intro init
    rw [List.flatMap_cons, List.foldl_append, List.foldl_cons, ih]

theorem foldl_skip {α γ : Type} (f : γ → α → γ) :
    ∀ (l : List α) (st : γ), (∀ c ∈ l, ∀ s, f s c = s) → l.foldl f st = st := by
  intro l
  induction l with
  | nil => intro st _; rfl
  | cons x xs ih =>
    intro st h
    rw [List.foldl_cons, h x (List.mem_cons_self _ _)]
    exact ih st (fun c hc s => h c (List.mem_cons_of_mem _ hc) s)

/-! ## First-pass lemmas (lines 226-266) -/

theorem first_pass_eq_flat (rootName : String) (ad : AnimDict) (st : FPState) :
    first_pass rootName ad st
      = (channels_of ad).foldl
          (fun st c => first_pass_channel rootName c.1 c.2.1 c.2.2.1 c.2.2.2 st)
          st := by
  unfold first_pass channels_of
  rw [foldl_flatMap]
  apply List.foldl_ext
  intro st oe _
  rw [foldl_flatMap]
  apply List.foldl_ext
  intro st pe _
  rw [List.foldl_map]

theorem first_pass_flat_fcurves (rootName : String) :
    ∀ (cs : List (String × String × Nat × KFs)) (st : FPState),
      (cs.foldl
        (fun st c => first_pass_channel rootName c.1 c.2.1 c.2.2.1 c.2.2.2 st)
        st).fcurves
        = st.fcurves ++ cs.filterMap (fcurve_of_channel rootName) := by
  intro cs
  induction cs with
  | nil => intro st; simp
  | cons c rest ih =>
    intro st
    rw [List.foldl_cons, ih, List.filterMap_cons]
    by_cases h1 : c.1 = rootName ∧ c.2.1 ∈ transform_props
    · simp [first_pass_channel, fcurve_of_channel, h1]
    · by_cases h2 : c.2.1 ∈ transform_props
      · have hr : ¬ c.1 = rootName := fun h => h1 ⟨h, h2⟩
        by_cases h3 : prop_key (clean_name c.1) c.2.1 c.2.2.1 ∈ st.root_props
        · simp [first_pass_channel, fcurve_of_channel, h1, h2, h3, hr]
        · simp [first_pass_channel, fcurve_of_channel, h1, h2, h3, hr]
      · simp [first_pass_channel, fcurve_of_channel, h1, h2]

theorem first_pass_channel_props_mono (rootName n p : String) (a : Nat)
    (kf : KFs) (st : FPState) :
    st.root_props ⊆ (first_pass_channel rootName n p a kf st).root_props := by
  unfold first_pass_channel
  by_cases h1 : n = rootName ∧ p ∈ transform_props
  · simp [h1]
  · by_cases h2 : p ∈ transform_props
    · have hr : ¬ n = rootName := fun h => h1 ⟨h, h2⟩
      by_cases h3 : prop_key (clean_name n) p a ∈ st.root_props
      · simp [h1, h2, h3, hr]
      · simp [h1, h2, h3, hr]
    · simp [h1, h2]

theorem first_pass_flat_props_mono (rootName : String) :
    ∀ (cs : List (String × String × Nat × KFs)) (st : FPState),
      st.root_props ⊆
        (cs.foldl
          (fun st c => first_pass_channel rootName c.1 c.2.1 c.2.2.1 c.2.2.2 st)
          st).root_props := by
  intro cs
  induction cs with
  | nil => intro st; simp
  | cons c rest ih =>
    intro st
    rw [List.foldl_cons]
    exact Set.Subset.trans
      (first_pass_channel_props_mono rootName c.1 c.2.1 c.2.2.1 c.2.2.2 st)
      (ih _)

theorem first_pass_channel_key_mem (rootName n p : String) (a : Nat)
    (kf : KFs) (st : FPState)
    (h1 : ¬(n = rootName ∧ p ∈ transform_props))
    (h2 : p ∈ transform_props) :
    prop_key (clean_name n) p a ∈
      (first_pass_channel rootName n p a kf st).root_props := by
  unfold first_pass_channel
  have hr : ¬ n = rootName := fun h => h1 ⟨h, h2⟩
  by_cases h3 : prop_key (clean_name n) p a ∈ st.root_props
  · simp [h1, h2, h3, hr]
  · simp [h1, h2, h3, hr]

theorem first_pass_flat_key_mem (rootName : String) :
    ∀ (cs : List (String × String × Nat × KFs)) (st : FPState)
      (c : String × String × Nat × KFs), c ∈ cs →
      ¬(c.1 = rootName ∧ c.2.1 ∈ transform_props) →
      c.2.1 ∈ transform_props →
      prop_key (clean_name c.1) c.2.1 c.2.2.1 ∈
        (cs.foldl
          (fun st c => first_pass_channel rootName c.1 c.2.1 c.2.2.1 c.2.2.2 st)
          st).root_props := by
  intro cs
  induction cs with
  | nil => intro st c hc; simp at hc
  | cons d rest ih =>
    intro st c hc h1 h2
    rw [List.foldl_cons]
    rcases List.mem_cons.mp hc with rfl | hc'
    · exact first_pass_flat_props_mono rootName rest _
        (first_pass_channel_key_mem rootName c.1 c.2.1 c.2.2.1 c.2.2.2 st h1 h2)
    · exact ih _ c hc' h1 h2

/-! ## Second-pass lemmas (lines 268-325) -/

theorem second_pass_eq_flat (rootName : String) (data_objects : List String)
    (fail : String → String → Nat → Bool) (ad : AnimDict) :
    second_pass rootName data_objects fail ad
      = (channels_of ad).foldl (second_pass_channel rootName data_objects fail)
          ([], []) := by
  unfold second_pass channels_of
  rw [foldl_flatMap]
  apply List.foldl_ext
  intro st oe _
  rw [foldl_flatMap]
  by_cases hroot : oe.1 = rootName
  · rw [if_pos hroot]
    refine (foldl_skip _ _ _ ?_).symm
    intro pe _ s
    apply foldl_skip
    intro ae hae s'
    rcases List.mem_map.mp hae with ⟨x, _, rfl⟩
    simp [second_pass_channel, hroot]
  · by_cases hdata : oe.1 ∉ data_objects
    · rw [if_neg hroot, if_pos hdata]
      refine (foldl_skip _ _ _ ?_).symm
      intro pe _ s
      apply foldl_skip
      intro ae hae s'
      rcases List.mem_map.mp hae with ⟨x, _, rfl⟩
      simp [second_pass_channel, hroot, hdata]
    · rw [if_neg hroot, if_neg hdata]
      apply List.foldl_ext
      intro st pe _
      by_cases hT : pe.1 ∉ transform_props
      · rw [if_pos hT]
        refine (foldl_skip _ _ _ ?_).symm
        intro ae hae s'
        rcases List.mem_map.mp hae with ⟨x, _, rfl⟩
        simp [second_pass_channel, hroot, hdata, hT]
      · rw [if_neg hT, List.foldl_map]
        apply List.foldl_ext
        intro st ae _
        simp [second_pass_channel, hroot, hdata, hT]

theorem second_pass_flat_spec (rootName : String) (data_objects : List String)
    (fail : String → String → Nat → Bool) :
    ∀ (cs : List (String × String × Nat × KFs)) (st : List Driver × List Warn),
      cs.foldl (second_pass_channel rootName data_objects fail) st
        = (st.1 ++ cs.filterMap (driver_of_channel rootName data_objects fail),
           st.2 ++ cs.filterMap (warn_of_channel rootName data_objects fail)) := by
  intro cs
  induction cs with
  | nil => intro st; simp
  | cons c rest ih =>
    intro st
    rw [List.foldl_cons, ih, List.filterMap_cons, List.filterMap_cons]
    by_cases hroot : c.1 = rootName
    · simp [second_pass_channel, driver_of_channel, warn_of_channel, hroot]
    · by_cases hdata : c.1 ∉ data_objects
      · simp [second_pass_channel, driver_of_channel, warn_of_channel, hroot, hdata]
      · by_cases hT : c.2.1 ∉ transform_props
        · simp [second_pass_channel, driver_of_channel, warn_of_channel, hroot,
            hdata, hT]
        · by_cases hf : fail c.1 c.2.1 c.2.2.1
          · simp [second_pass_channel, driver_of_channel, warn_of_channel, hroot,
              hdata, hT, hf]
          · simp [second_pass_channel, driver_of_channel, warn_of_channel, hroot,
              hdata, hT, hf]

/-! ## Keyframe-insertion lemmas -/

theorem insertKF_append_last (l : KFs) (k : Int × Int)
    (h : ∀ x ∈ l, x.1 < k.1) : insertKF l k = l ++ [k] := by
  induction l with
  | nil => rfl
  | cons e rest ih =>
    obtain ⟨f, v⟩ := e
    have hf : f < k.1 := h (f, v) (List.mem_cons_self _ _)
    rw [insertKF, if_neg (by omega), if_neg (by omega),
      ih (fun x hx => h x (List.mem_cons_of_mem _ hx))]
    rfl

theorem foldl_insertKF_sorted :
    ∀ (l : KFs) (acc : KFs),
      (∀ x ∈ acc, ∀ y ∈ l, x.1 < y.1) →
      l.Pairwise (fun x y => x.1 < y.1) →
      l.foldl insertKF acc = acc ++ l := by
  intro l
  induction l with
  | nil => intro acc _ _; simp
  | cons k rest ih =>
    intro acc hlt hp
    rw [List.foldl_cons, insertKF_append_last acc k
      (fun x hx => hlt x hx k (List.mem_cons_self _ _))]
    rw [ih (acc ++ [k]) ?_ (List.Pairwise.of_cons hp)]
    · simp
    · intro x hx y hy
      rcases List.mem_append.mp hx with h1 | h1
      · exact hlt x h1 y (List.mem_cons_of_mem _ hy)
      · rcases List.mem_singleton.mp h1 with rfl
        exact (List.pairwise_cons.mp hp).1 y hy

theorem fold_insert_sorted (kfs : KFs)
    (h : kfs.Pairwise (fun x y => x.1 < y.1)) : fold_insert kfs = kfs := by
  unfold fold_insert
  rw [foldl_insertKF_sorted kfs [] (by simp) h]
  simp

/-! ## Projections of `create_standalone_action` -/

theorem csa_master_fcurves_eq (master_name : String) (keep : Bool)
    (fail : String → String → Nat → Bool) (data_objects : List String)
    (scene_frame : Int) (root : BObj) (animated : List BObj) :
    (create_standalone_action master_name keep fail data_objects scene_frame
      root animated).master_fcurves
      = (channels_of (collect_animation_data animated)).filterMap
          (fcurve_of_channel root.name) := by
  unfold create_standalone_action
  simp only
  rw [first_pass_eq_flat, first_pass_flat_fcurves]
  rfl

theorem csa_root_props_eq (master_name : String) (keep : Bool)
    (fail : String → String → Nat → Bool) (data_objects : List String)
    (scene_frame : Int) (root : BObj) (animated : List BObj) :
    (create_standalone_action master_name keep fail data_objects scene_frame
      root animated).root_props_after
      = (first_pass root.name (collect_animation_data animated)
          ⟨root.props, [], []⟩).root_props := by
  rfl

theorem csa_drivers_eq (master_name : String) (keep : Bool)
    (fail : String → String → Nat → Bool) (data_objects : List String)
    (scene_frame : Int) (root : BObj) (animated : List BObj) :
    (create_standalone_action master_name keep fail data_objects scene_frame
      root animated).drivers
      = (channels_of (collect_animation_data animated)).filterMap
          (driver_of_channel root.name data_objects fail) := by
  unfold create_standalone_action
  simp only
  rw [second_pass_eq_flat, second_pass_flat_spec]
  simp

theorem csa_warnings_eq (master_name : String) (keep : Bool)
    (fail : String → String → Nat → Bool) (data_objects : List String)
    (scene_frame : Int) (root : BObj) (animated : List BObj) :
    (create_standalone_action master_name keep fail data_objects scene_frame
      root animated).warnings
      = (channels_of (collect_animation_data animated)).filterMap
          (warn_of_channel root.name data_objects fail) := by
  unfold create_standalone_action
  simp only
  rw [second_pass_eq_flat, second_pass_flat_spec]
  simp

/-! ## Claim C1 -/

/-- C1 counterexample: the claim says every channel of a non-root animated
object gets a synthesized custom-property F-curve and a driver, but on an
animated child whose only channel is the non-transform property
`hide_render` the merger creates no F-curve and no driver at all: both
output lists are empty. -/
theorem create_standalone_action_drops_non_transform :
    (⟨"hide_render", 0, [(1, 1)]⟩ : FCurve) ∈ cx_act.fcurves ∧
    cx_cube.act = some cx_act ∧
    cx_cube ∈ [cx_cube] ∧
    cx_cube.name ≠ cx_root.name ∧
    (create_standalone_action "Master" true (fun _ _ _ => false)
      ["Root", "Cube"] 0 cx_root [cx_cube]).master_fcurves = [] ∧
    (create_standalone_action "Master" true (fun _ _ _ => false)
      ["Root", "Cube"] 0 cx_root [cx_cube]).drivers = [] := by
  refine ⟨?_, rfl, List.mem_cons_self _ _, by decide, rfl, rfl⟩
  simp [cx_act]

/-- C1 (amended): for each animated object, the clip merger copies each of
the object's transform-property channels (`location`, `rotation_euler`,
`scale`) into the master action: a channel owned by the root becomes an
F-curve directly on that property, and a transform channel of any other
object becomes an F-curve on a synthesized custom scalar field on the root
carrying the same `(frame, value)` keyframes, with a driver attached on the
original object's channel reading that scalar field (when the object is
still in `bpy.data.objects` and the host driver call succeeds). Channels
whose property is not one of the three transform properties are skipped
entirely. -/
theorem create_standalone_action_copies_channels (master_name : String)
    (keep : Bool) (fail : String → String → Nat → Bool)
    (data_objects : List String) (scene_frame : Int) (root : BObj)
    (animated : List BObj) (o : BObj) (act : BAction) (fc : FCurve)
    (ho : o ∈ animated) (hact : o.act = some act) (hfc : fc ∈ act.fcurves)
    (hnames : (animated.map BObj.name).Nodup)
    (hkeys : (act.fcurves.map (fun f => (f.data_path, f.array_index))).Nodup)
    (hsorted : fc.keyframe_points.Pairwise (fun x y => x.1 < y.1)) :
    (o.name = root.name → fc.data_path ∈ transform_props →
      (⟨fc.data_path, fc.array_index, fc.keyframe_points⟩ : FCurve) ∈
        (create_standalone_action master_name keep fail data_objects
          scene_frame root animated).master_fcurves) ∧
    (o.name ≠ root.name → fc.data_path ∈ transform_props →
      (⟨quote_path (prop_key (clean_name o.name) fc.data_path fc.array_index),
          0, fc.keyframe_points⟩ : FCurve) ∈
        (create_standalone_action master_name keep fail data_objects
          scene_frame root animated).master_fcurves ∧
      prop_key (clean_name o.name) fc.data_path fc.array_index ∈
        (create_standalone_action master_name keep fail data_objects
          scene_frame root animated).root_props_after ∧
      (o.name ∈ data_objects → fail o.name fc.data_path fc.array_index = false →
        (⟨o.name, fc.data_path, fc.array_index, "value",
            quote_path (prop_key (clean_name o.name) fc.data_path
              fc.array_index)⟩ : Driver) ∈
          (create_standalone_action master_name keep fail data_objects
            scene_frame root animated).drivers)) := by
  have hch := channel_of_fcurve animated o act fc ho hact hfc hnames hkeys
  constructor
  · intro hr hT
    rw [csa_master_fcurves_eq]
    refine List.mem_filterMap.mpr ⟨_, hch, ?_⟩
    simp [fcurve_of_channel, hr, hT, fold_insert_sorted _ hsorted]
  · intro hr hT
    refine ⟨?_, ?_, ?_⟩
    · rw [csa_master_fcurves_eq]
      refine List.mem_filterMap.mpr ⟨_, hch, ?_⟩
      simp [fcurve_of_channel, hr, hT, fold_insert_sorted _ hsorted]
    · rw [csa_root_props_eq, first_pass_eq_flat]
      exact first_pass_flat_key_mem root.name _ _ _ hch
        (by simp [hr]) hT
    · intro hdata hfail
      rw [csa_drivers_eq]
      refine List.mem_filterMap.mpr ⟨_, hch, ?_⟩
      simp [driver_of_channel, hr, hT, hdata, hfail]

/-- C1 witness: in the concrete witness scene, the child `Arm`'s
`location[2]` channel is copied onto the synthesized key on the root and
driven. -/
theorem create_standalone_action_copies_channels_witness :
    w_arm.act = some w_act_arm ∧
    (⟨"location", 2, [(3, 7)]⟩ : FCurve) ∈ w_act_arm.fcurves ∧
    (⟨quote_path (prop_key (clean_name "Arm") "location" 2), 0,
        [(3, 7)]⟩ : FCurve) ∈
      (create_standalone_action "Master" true (fun _ _ _ => false) w_data 0
        w_root [w_root, w_arm, w_leg]).master_fcurves ∧
    prop_key (clean_name "Arm") "location" 2 ∈
      (create_standalone_action "Master" true (fun _ _ _ => false) w_data 0
        w_root [w_root, w_arm, w_leg]).root_props_after ∧
    (⟨"Arm", "location", 2, "value",
        quote_path (prop_key (clean_name "Arm") "location" 2)⟩ : Driver) ∈
      (create_standalone_action "Master" true (fun _ _ _ => false) w_data 0
        w_root [w_root, w_arm, w_leg]).drivers := by
  have h := (create_standalone_action_copies_channels "Master" true
    (fun _ _ _ => false) w_data 0 w_root [w_root, w_arm, w_leg] w_arm w_act_arm
    ⟨"location", 2, [(3, 7)]⟩
    (List.mem_cons_of_mem _ (List.mem_cons_self _ _)) rfl
    (by simp [w_act_arm]) (by decide) (by decide) (by decide)).2
  have h2 := h (by decide) (by decide)
  exact ⟨rfl, by simp [w_act_arm], h2.1, h2.2.1, h2.2.2 (by decide) rfl⟩

/-! ## Key-decoding lemmas (injectivity of the naming scheme, claim C2) -/

theorem stripChars_self : ∀ (p rest : List Char), stripChars p (p ++ rest) = some rest := by
  intro p
  induction p with
  | nil => intro rest; rfl
  | cons a ps ih => intro rest; simp [stripChars, ih]

theorem stripChars_sound : ∀ (p s r : List Char), stripChars p s = some r → s = p ++ r := by
  intro p
  induction p with
  | nil =>
    intro s r h
    simp [stripChars] at h
    simp [h]
  | cons a ps ih =>
    intro s r h
    cases s with
    | nil => simp [stripChars] at h
    | cons b bs =>
      rw [stripChars] at h
      by_cases hb : b = a
      · rw [if_pos hb] at h
        subst hb
        simp [ih bs r h]
      · rw [if_neg hb] at h
        exact absurd h (by simp)

theorem rev_data_append (c sfx : String) :
    (c ++ sfx).data.reverse = sfx.data.reverse ++ c.data.reverse := by
  rw [String.data_append, List.reverse_append]

theorem strip_sfx_append (sfx c : String) : strip_sfx sfx (c ++ sfx) = some c := by
  unfold strip_sfx
  rw [rev_data_append, stripChars_self]
  obtain ⟨d⟩ := c
  simp

theorem strip_sfx_none (sfx1 sfx2 c : String)
    (h1 : ¬ sfx1.data.reverse <+: sfx2.data.reverse)
    (h2 : ¬ sfx2.data.reverse <+: sfx1.data.reverse) :
    strip_sfx sfx1 (c ++ sfx2) = none := by
  unfold strip_sfx
  rw [rev_data_append]
  cases heq : stripChars sfx1.data.reverse (sfx2.data.reverse ++ c.data.reverse) with
  | none => rfl
  | some r =>
    exfalso
    have hs := stripChars_sound _ _ _ heq
    rcases le_total sfx1.data.reverse.length sfx2.data.reverse.length with hle | hle
    · apply h1
      have hpre1 : sfx1.data.reverse <+: sfx1.data.reverse ++ r := List.prefix_append _ _
      rw [← hs] at hpre1
      exact List.prefix_of_prefix_length_le hpre1 (List.prefix_append _ _) hle
    · apply h2
      have hpre2 : sfx2.data.reverse <+: sfx2.data.reverse ++ c.data.reverse :=
        List.prefix_append _ _
      rw [hs] at hpre2
      exact List.prefix_of_prefix_length_le hpre2 (List.prefix_append _ _) hle

theorem decode_key_loc_x (c : String) :
    decode_key (c ++ "_loc_x") = some (c, "location", 0) := by
  simp [decode_key, strip_sfx_append]

theorem decode_key_loc_y (c : String) :
    decode_key (c ++ "_loc_y") = some (c, "location", 1) := by
  have h0 := strip_sfx_none "_loc_x" "_loc_y" c (by decide) (by decide)
  simp [decode_key, strip_sfx_append, h0]

theorem decode_key_loc_z (c : String) :
    decode_key (c ++ "_loc_z") = some (c, "location", 2) := by
  have h0 := strip_sfx_none "_loc_x" "_loc_z" c (by decide) (by decide)
  have h1 := strip_sfx_none "_loc_y" "_loc_z" c (by decide) (by decide)
  simp [decode_key, strip_sfx_append, h0, h1]

theorem decode_key_rot_x (c : String) :
    decode_key (c ++ "_rot_x") = some (c, "rotation_euler", 0) := by
  have h0 := strip_sfx_none "_loc_x" "_rot_x" c (by decide) (by decide)
  have h1 := strip_sfx_none "_loc_y" "_rot_x" c (by decide) (by decide)
  have h2 := strip_sfx_none "_loc_z" "_rot_x" c (by decide) (by decide)
  simp [decode_key, strip_sfx_append, h0, h1, h2]

theorem decode_key_rot_y (c : String) :
    decode_key (c ++ "_rot_y") = some (c, "rotation_euler", 1) := by
  have h0 := strip_sfx_none "_loc_x" "_rot_y" c (by decide) (by decide)
  have h1 := strip_sfx_none "_loc_y" "_rot_y" c (by decide) (by decide)
  have h2 := strip_sfx_none "_loc_z" "_rot_y" c (by decide) (by decide)
  have h3 := strip_sfx_none "_rot_x" "_rot_y" c (by decide) (by decide)
  simp [decode_key, strip_sfx_append, h0, h1, h2, h3]

theorem decode_key_rot_z (c : String) :
    decode_key (c ++ "_rot_z") = some (c, "rotation_euler", 2) := by
  have h0 := strip_sfx_none "_loc_x" "_rot_z" c (by decide) (by decide)
  have h1 := strip_sfx_none "_loc_y" "_rot_z" c (by decide) (by decide)
  have h2 := strip_sfx_none "_loc_z" "_rot_z" c (by decide) (by decide)
  have h3 := strip_sfx_none "_rot_x" "_rot_z" c (by decide) (by decide)
  have h4 := strip_sfx_none "_rot_y" "_rot_z" c (by decide) (by decide)
  simp [decode_key, strip_sfx_append, h0, h1, h2, h3, h4]

theorem decode_key_scale_x (c : String) :
    decode_key (c ++ "_scale_x") = some (c, "scale", 0) := by
  have h0 := strip_sfx_none "_loc_x" "_scale_x" c (by decide) (by decide)
  have h1 := strip_sfx_none "_loc_y" "_scale_x" c (by decide) (by decide)
  have h2 := strip_sfx_none "_loc_z" "_scale_x" c (by decide) (by decide)
  have h3 := strip_sfx_none "_rot_x" "_scale_x" c (by decide) (by decide)
  have h4 := strip_sfx_none "_rot_y" "_scale_x" c (by decide) (by decide)
  have h5 := strip_sfx_none "_rot_z" "_scale_x" c (by decide) (by decide)
  simp [decode_key, strip_sfx_append, h0, h1, h2, h3, h4, h5]

theorem decode_key_scale_y (c : String) :
    decode_key (c ++ "_scale_y") = some (c, "scale", 1) := by
  have h0 := strip_sfx_none "_loc_x" "_scale_y" c (by decide) (by decide)
  have h1 := strip_sfx_none "_loc_y" "_scale_y" c (by decide) (by decide)
  have h2 := strip_sfx_none "_loc_z" "_scale_y" c (by decide) (by decide)
  have h3 := strip_sfx_none "_rot_x" "_scale_y" c (by decide) (by decide)
  have h4 := strip_sfx_none "_rot_y" "_scale_y" c (by decide) (by decide)
  have h5 := strip_sfx_none "_rot_z" "_scale_y" c (by decide) (by decide)
  have h6 := strip_sfx_none "_scale_x" "_scale_y" c (by decide) (by decide)
  simp [decode_key, strip_sfx_append, h0, h1, h2, h3, h4, h5, h6]

theorem decode_key_scale_z (c : String) :
    decode_key (c ++ "_scale_z") = some (c, "scale", 2) := by
  have h0 := strip_sfx_none "_loc_x" "_scale_z" c (by decide) (by decide)
  have h1 := strip_sfx_none "_loc_y" "_scale_z" c (by decide) (by decide)
  have h2 := strip_sfx_none "_loc_z" "_scale_z" c (by decide) (by decide)
  have h3 := strip_sfx_none "_rot_x" "_scale_z" c (by decide) (by decide)
  have h4 := strip_sfx_none "_rot_y" "_scale_z" c (by decide) (by decide)
  have h5 := strip_sfx_none "_rot_z" "_scale_z" c (by decide) (by decide)
  have h6 := strip_sfx_none "_scale_x" "_scale_z" c (by decide) (by decide)
  have h7 := strip_sfx_none "_scale_y" "_scale_z" c (by decide) (by decide)
  simp [decode_key, strip_sfx_append, h0, h1, h2, h3, h4, h5, h6, h7]

theorem decode_prop_key (c p : String) (a : Nat)
    (hp : p ∈ transform_props) (ha : a < 3) :
    decode_key (prop_key c p a) = some (c, p, a) := by
  simp only [transform_props, List.mem_cons, List.mem_singleton,
    List.not_mem_nil, or_false] at hp
  rcases hp with rfl | rfl | rfl <;> interval_cases a
  · have e : prop_key c "location" 0 = (c ++ "_loc_") ++ "x" := rfl
    rw [String.append_assoc] at e
    rw [e]
    exact decode_key_loc_x c
  · have e : prop_key c "location" 1 = (c ++ "_loc_") ++ "y" := rfl
    rw [String.append_assoc] at e
    rw [e]
    exact decode_key_loc_y c
  · have e : prop_key c "location" 2 = (c ++ "_loc_") ++ "z" := rfl
    rw [String.append_assoc] at e
    rw [e]
    exact decode_key_loc_z c
  · have e : prop_key c "rotation_euler" 0 = (c ++ "_rot_") ++ "x" := rfl
    rw [String.append_assoc] at e
    rw [e]
    exact decode_key_rot_x c
  · have e : prop_key c "rotation_euler" 1 = (c ++ "_rot_") ++ "y" := rfl
    rw [String.append_assoc] at e
    rw [e]
    exact decode_key_rot_y c
  · have e : prop_key c "rotation_euler" 2 = (c ++ "_rot_") ++ "z" := rfl
    rw [String.append_assoc] at e
    rw [e]
    exact decode_key_rot_z c
  · have e : prop_key c "scale" 0 = (c ++ "_scale_") ++ "x" := rfl
    rw [String.append_assoc] at e
    rw [e]
    exact decode_key_scale_x c
  · have e : prop_key c "scale" 1 = (c ++ "_scale_") ++ "y" := rfl
    rw [String.append_assoc] at e
    rw [e]
    exact decode_key_scale_y c
  · have e : prop_key c "scale" 2 = (c ++ "_scale_") ++ "z" := rfl
    rw [String.append_assoc] at e
    rw [e]
    exact decode_key_scale_z c

/-! ## Claim C2 -/

/-- C2 counterexample: the naming function is not injective on raw object
names: the distinct channels `("a.b", location, x)` and `("a b", location,
x)` produce the same custom-property key `a_b_loc_x`, because the cleaning
step maps both `'.'` and `' '` to `'_'`. -/
theorem prop_key_collision :
    (("a.b" : String), ("location" : String), (0 : Nat))
      ≠ (("a b" : String), ("location" : String), (0 : Nat)) ∧
    prop_key (clean_name "a.b") "location" 0
      = prop_key (clean_name "a b") "location" 0 := by
  exact ⟨by decide, by decide⟩

/-- C2 (amended): the naming function is injective on (cleaned object name,
transform property, axis) triples: two transform channels (axis < 3)
receive the same custom-property key only if their cleaned object names,
properties and axes all agree. Distinct raw object names can still collide
exactly when cleaning (replacing `'.'` and `' '` by `'_'`) identifies
them. -/
theorem prop_key_injective (n1 n2 p1 p2 : String) (a1 a2 : Nat)
    (hp1 : p1 ∈ transform_props) (hp2 : p2 ∈ transform_props)
    (ha1 : a1 < 3) (ha2 : a2 < 3)
    (hkey : prop_key (clean_name n1) p1 a1 = prop_key (clean_name n2) p2 a2) :
    clean_name n1 = clean_name n2 ∧ p1 = p2 ∧ a1 = a2 := by
  have h1 := decode_prop_key (clean_name n1) p1 a1 hp1 ha1
  have h2 := decode_prop_key (clean_name n2) p2 a2 hp2 ha2
  rw [hkey, h2] at h1
  obtain ⟨ea, eb, ec⟩ : clean_name n2 = clean_name n1 ∧ p2 = p1 ∧ a2 = a1 := by
    simpa using h1
  exact ⟨ea.symm, eb.symm, ec.symm⟩

/-- C2 witness: applying the injectivity theorem to the colliding key of
`"a.b"` and `"a_b"` shows their cleaned names coincide. -/
theorem prop_key_injective_witness :
    (("location" : String) ∈ transform_props ∧ (2 : Nat) < 3 ∧
      prop_key (clean_name "a.b") "location" 2
        = prop_key (clean_name "a_b") "location" 2) ∧
    (clean_name "a.b" = clean_name "a_b" ∧
      ("location" : String) = "location" ∧ (2 : Nat) = 2) :=
  ⟨⟨by decide, by decide, by decide⟩,
    prop_key_injective "a.b" "a_b" "location" "location" 2 2 (by decide)
      (by decide) (by decide) (by decide) (by decide)⟩

/-! ## Claim C4: root selection -/

theorem max_desc_loop_all_le :
    ∀ (l : List BObj) (mc : Int) (best : Option BObj),
      (∀ o ∈ l, (count_descendants o : Int) ≤ mc) →
      max_desc_loop l mc best = best := by
  intro l
  induction l with
  | nil => intro mc best _; rfl
  | cons o rest ih =>
    intro mc best hle
    rw [max_desc_loop, if_neg (by
      simpa using hle o (List.mem_cons_self _ _))]
    exact ih mc best (fun o' h' => hle o' (List.mem_cons_of_mem _ h'))

theorem max_desc_loop_some :
    ∀ (l : List BObj) (mc : Int) (best : Option BObj),
      (∃ o ∈ l, (count_descendants o : Int) > mc) →
      ∃ r, max_desc_loop l mc best = some r ∧ r ∈ l ∧
        (count_descendants r : Int) > mc ∧
        ∀ o ∈ l, count_descendants o ≤ count_descendants r := by
  intro l
  induction l with
  | nil => intro mc best h; simp at h
  | cons o rest ih =>
    intro mc best hex
    by_cases h : (count_descendants o : Int) > mc
    · rw [max_desc_loop, if_pos h]
      by_cases h2 : ∃ o' ∈ rest, (count_descendants o' : Int) > (count_descendants o : Int)
      · obtain ⟨r, hr1, hr2, hr3, hr4⟩ := ih (count_descendants o) (some o) h2
        refine ⟨r, hr1, List.mem_cons_of_mem _ hr2, lt_trans h hr3, ?_⟩
        intro o' ho'
        rcases List.mem_cons.mp ho' with rfl | ho''
        · exact_mod_cast le_of_lt hr3
        · exact hr4 o' ho''
      · push_neg at h2
        rw [max_desc_loop_all_le rest _ _ h2]
        refine ⟨o, rfl, List.mem_cons_self _ _, h, ?_⟩
        intro o' ho'
        rcases List.mem_cons.mp ho' with rfl | ho''
        · exact le_refl _
        · exact_mod_cast h2 o' ho''
    · rw [max_desc_loop, if_neg h]
      have hex' : ∃ o' ∈ rest, (count_descendants o' : Int) > mc := by
        obtain ⟨o', ho', hgt⟩ := hex
        rcases List.mem_cons.mp ho' with rfl | ho''
        · exact absurd hgt h
        · exact ⟨o', ho'', hgt⟩
      obtain ⟨r, hr1, hr2, hr3, hr4⟩ := ih mc best hex'
      refine ⟨r, hr1, List.mem_cons_of_mem _ hr2, hr3, ?_⟩
      intro o' ho'
      rcases List.mem_cons.mp ho' with rfl | ho''
      · have : (count_descendants o' : Int) ≤ mc := le_of_not_lt h
        exact_mod_cast le_trans this (le_of_lt hr3)
      · exact hr4 o' ho''

/-- C4: the selection resolver picks the hierarchy root by name heuristics
first (a name containing "root" or starting with "player"/"character"/
"rig", then a name containing "visual"), and only when no name matches does
it fall back to a selected object with the greatest total descendant count;
for every non-empty selection it returns some selected object. -/
theorem find_root_object_spec (objects : List BObj) (h : objects ≠ []) :
    ∃ r, find_root_object objects = some r ∧ r ∈ objects ∧
      ((∃ o ∈ objects, name_matches_primary o.name = true) →
        name_matches_primary r.name = true) ∧
      ((¬ ∃ o ∈ objects, name_matches_primary o.name = true) →
        (∃ o ∈ objects, name_matches_visual o.name = true) →
        name_matches_visual r.name = true) ∧
      ((¬ ∃ o ∈ objects, name_matches_primary o.name = true) →
        (¬ ∃ o ∈ objects, name_matches_visual o.name = true) →
        ∀ o ∈ objects, count_descendants o ≤ count_descendants r) := by
  unfold find_root_object
  cases hfind : objects.find? (fun o => name_matches_primary o.name) with
  | some o =>
    have hmem := List.mem_of_find?_eq_some hfind
    have hp : name_matches_primary o.name = true := by
      simpa using List.find?_some hfind
    exact ⟨o, rfl, hmem, fun _ => hp,
      fun hnp _ => absurd ⟨o, hmem, hp⟩ hnp,
      fun hnp _ => absurd ⟨o, hmem, hp⟩ hnp⟩
  | none =>
    have hnone : ∀ o ∈ objects, ¬ name_matches_primary o.name = true := by
      intro o ho
      simpa using List.find?_eq_none.mp hfind o ho
    cases hfind2 : objects.find? (fun o => name_matches_visual o.name) with
    | some o =>
      have hmem := List.mem_of_find?_eq_some hfind2
      have hv : name_matches_visual o.name = true := by
        simpa using List.find?_some hfind2
      exact ⟨o, rfl, hmem,
        fun hex => absurd hex (by
          push_neg
          intro o' ho'
          simpa using hnone o' ho'),
        fun _ _ => hv,
        fun _ hnv => absurd ⟨o, hmem, hv⟩ hnv⟩
    | none =>
      have hvnone : ∀ o ∈ objects, ¬ name_matches_visual o.name = true := by
        intro o ho
        simpa using List.find?_eq_none.mp hfind2 o ho
      have hex : ∃ o ∈ objects, (count_descendants o : Int) > -1 := by
        cases objects with
        | nil => exact absurd rfl h
        | cons o rest =>
          exact ⟨o, List.mem_cons_self _ _,
            lt_of_lt_of_le (by norm_num) (Int.natCast_nonneg _)⟩
      obtain ⟨r, hr1, hr2, _, hr4⟩ := max_desc_loop_some objects (-1) none hex
      exact ⟨r, hr1, hr2,
        fun hex' => absurd hex' (by
          push_neg
          intro o' ho'
          simpa using hnone o' ho'),
        fun _ hex' => absurd hex' (by
          push_neg
          intro o' ho'
          simpa using hvnone o' ho'),
        fun _ _ => hr4⟩

/-- C4 witness: on the selection `[w_arm, w_leg]` (no name heuristic
matches) the resolver still returns some selected object maximizing the
descendant count. -/
theorem find_root_object_spec_witness :
    ([w_arm, w_leg] ≠ ([] : List BObj)) ∧
    (∃ r, find_root_object [w_arm, w_leg] = some r ∧ r ∈ [w_arm, w_leg] ∧
      ((∃ o ∈ [w_arm, w_leg], name_matches_primary o.name = true) →
        name_matches_primary r.name = true) ∧
      ((¬ ∃ o ∈ [w_arm, w_leg], name_matches_primary o.name = true) →
        (∃ o ∈ [w_arm, w_leg], name_matches_visual o.name = true) →
        name_matches_visual r.name = true) ∧
      ((¬ ∃ o ∈ [w_arm, w_leg], name_matches_primary o.name = true) →
        (¬ ∃ o ∈ [w_arm, w_leg], name_matches_visual o.name = true) →
        ∀ o ∈ [w_arm, w_leg], count_descendants o ≤ count_descendants r)) :=
  ⟨by simp, find_root_object_spec [w_arm, w_leg] (by simp)⟩

/-! ## Claim C6: hierarchy walker -/

mutual

theorem mem_get_hierarchy_objects :
    ∀ (root x : BObj), x ∈ get_hierarchy_objects root ↔ Reaches root x
  | .mk n a p t cs, x => by
    rw [get_hierarchy_objects]
    constructor
    · intro hx
      rcases List.mem_cons.mp hx with rfl | hx'
      · exact Reaches.refl _
      · obtain ⟨c, hc, hr⟩ := (mem_hier_list cs x).mp hx'
        exact Reaches.step (by simpa [BObj.children] using hc) hr
    · intro hr
      cases hr with
      | refl => exact List.mem_cons_self _ _
      | step hc hr2 =>
        exact List.mem_cons_of_mem _
          ((mem_hier_list cs x).mpr ⟨_, by simpa [BObj.children] using hc, hr2⟩)

theorem mem_hier_list :
    ∀ (l : List BObj) (x : BObj), x ∈ hier_list l ↔ ∃ c ∈ l, Reaches c x
  | [], x => by simp [hier_list]
  | c :: cs, x => by
    rw [hier_list, List.mem_append]
    constructor
    · intro h
      rcases h with h | h
      · exact ⟨c, List.mem_cons_self _ _, (mem_get_hierarchy_objects c x).mp h⟩
      · obtain ⟨c', hc', hr⟩ := (mem_hier_list cs x).mp h
        exact ⟨c', List.mem_cons_of_mem _ hc', hr⟩
    · rintro ⟨c', hc', hr⟩
      rcases List.mem_cons.mp hc' with rfl | hc''
      · exact Or.inl ((mem_get_hierarchy_objects c' x).mpr hr)
      · exact Or.inr ((mem_hier_list cs x).mpr ⟨c', hc'', hr⟩)

end

/-- C6: the hierarchy walker applied to the root returns exactly the
objects of the root's subtree: an object is in the returned list iff it is
reachable from the root by following child links (the root itself
included), so every descendant is present and nothing outside the subtree
is. -/
theorem get_hierarchy_objects_spec (root x : BObj) :
    x ∈ get_hierarchy_objects root ↔ Reaches root x :=
  mem_get_hierarchy_objects root x

/-- C6 witness: the child `w_arm` is reachable from `w_root` and is listed
by the hierarchy walker. -/
theorem get_hierarchy_objects_spec_witness :
    w_arm ∈ get_hierarchy_objects w_root ∧ Reaches w_root w_arm := by
  have h : Reaches w_root w_arm :=
    Reaches.step (c := w_arm)
      (by simp [w_root, BObj.children]) (Reaches.refl _)
  exact ⟨(get_hierarchy_objects_spec w_root w_arm).mpr h, h⟩

/-! ## Claim C5: animation range -/

theorem foldl_optMin_ge :
    ∀ (l : List Int) (b : Int), (∀ y ∈ l, b ≤ y) →
      l.foldl optMin (some b) = some b := by
  intro l
  induction l with
  | nil => intro b _; rfl
  | cons y ys ih =>
    intro b h
    rw [List.foldl_cons]
    have : optMin (some b) y = some b := by
      simp [optMin, min_eq_left (h y (List.mem_cons_self _ _))]
    rw [this]
    exact ih b (fun y' h' => h y' (List.mem_cons_of_mem _ h'))

theorem foldl_optMin_head (a0 : Option Int) (f : Int) (fs : List Int)
    (h : ∀ y ∈ fs, f ≤ y) :
    (f :: fs).foldl optMin a0 = optMin a0 f := by
  rw [List.foldl_cons]
  cases a0 with
  | none => exact foldl_optMin_ge fs f h
  | some a =>
    show fs.foldl optMin (some (min a f)) = some (min a f)
    exact foldl_optMin_ge fs (min a f)
      (fun y hy => le_trans (min_le_right a f) (h y hy))

theorem getLast_getD_cons {α : Type} (y f : α) (ys : List α) :
    ((y :: ys).getLast?).getD f = ys.getLast?.getD y := by
  induction ys generalizing y f with
  | nil => rfl
  | cons z zs ih =>
    rw [List.getLast?_cons_cons]
    rw [List.getLast?_eq_getLast (z :: zs) (List.cons_ne_nil _ _)]
    simp

theorem foldl_optMax_last :
    ∀ (kr : List Int) (f : Int) (a0 : Option Int),
      (f :: kr).Pairwise (fun x y => x ≤ y) →
      (f :: kr).foldl optMax a0 = optMax a0 (kr.getLast?.getD f) := by
  intro kr
  induction kr with
  | nil => intro f a0 _; rfl
  | cons y ys ih =>
    intro f a0 hp
    rw [List.foldl_cons, ih y (optMax a0 f) (List.Pairwise.of_cons hp)]
    have hmem : ys.getLast?.getD y ∈ y :: ys := by
      cases hys : ys.getLast? with
      | none => simp
      | some L =>
        simp only [Option.getD_some]
        refine List.mem_cons_of_mem _ ?_
        cases ys with
        | nil => simp at hys
        | cons z zs =>
          rw [List.getLast?_eq_getLast (z :: zs) (List.cons_ne_nil _ _)] at hys
          obtain rfl : L = (z :: zs).getLast (List.cons_ne_nil _ _) :=
            (Option.some.inj hys).symm
          exact List.getLast_mem _
    have hf : f ≤ ys.getLast?.getD y :=
      (List.pairwise_cons.mp hp).1 _ hmem
    rw [← getLast_getD_cons y f ys]
    cases a0 with
    | none => simp [optMax, max_eq_right hf, getLast_getD_cons]
    | some a =>
      simp [optMax, getLast_getD_cons]
      rw [max_assoc, max_eq_right hf]

theorem far_curve_fold :
    ∀ (fcurves : List FCurve) (st : Option Int × Option Int),
      (∀ fc ∈ fcurves, (fc.keyframe_points.map Prod.fst).Pairwise
        (fun x y => x ≤ y)) →
      fcurves.foldl
        (fun st fc =>
          match fc.keyframe_points with
          | [] => st
          | k :: rest =>
            (optMin st.1 k.1, optMax st.2 (rest.getLast?.getD k).1))
        st
      = ((fcurves.flatMap (fun fc => fc.keyframe_points.map Prod.fst)).foldl
          optMin st.1,
         (fcurves.flatMap (fun fc => fc.keyframe_points.map Prod.fst)).foldl
          optMax st.2) := by
  intro fcurves
  induction fcurves with
  | nil => intro st _; simp
  | cons fc rest ih =>
    intro st hs
    have hrest := fun f hf => hs f (List.mem_cons_of_mem _ hf)
    rw [List.foldl_cons, List.flatMap_cons, List.foldl_append, List.foldl_append]
    cases hk : fc.keyframe_points with
    | nil => simp [ih _ hrest]
    | cons k kr =>
      have hsort := hs fc (List.mem_cons_self _ _)
      rw [hk] at hsort
      rw [ih _ hrest]
      have hmap : (k :: kr).map Prod.fst = k.1 :: kr.map Prod.fst := rfl
      have hhead : ∀ y ∈ kr.map Prod.fst, k.1 ≤ y := by
        intro y hy
        rw [hmap] at hsort
        exact (List.pairwise_cons.mp hsort).1 y hy
      have hlast : ((kr.map Prod.fst).getLast?).getD k.1
          = (kr.getLast?.getD k).1 := by
        rw [List.getLast?_map]
        cases kr.getLast? with
        | none => rfl
        | some x => rfl
      congr 1
      · rw [hmap, foldl_optMin_head st.1 k.1 (kr.map Prod.fst) hhead]
      · rw [hmap, foldl_optMax_last (kr.map Prod.fst) k.1 st.2 (hmap ▸ hsort),
          hlast]

theorem far_fold_general :
    ∀ (objects : List BObj) (st : Option Int × Option Int),
      (∀ o ∈ objects, ∀ act, o.act = some act → ∀ fc ∈ act.fcurves,
        (fc.keyframe_points.map Prod.fst).Pairwise (fun x y => x ≤ y)) →
      objects.foldl
        (fun st o =>
          match o.act with
          | none => st
          | some act =>
            act.fcurves.foldl
              (fun st fc =>
                match fc.keyframe_points with
                | [] => st
                | k :: rest =>
                  (optMin st.1 k.1, optMax st.2 (rest.getLast?.getD k).1))
              st)
        st
      = ((allFrames objects).foldl optMin st.1,
         (allFrames objects).foldl optMax st.2) := by
  intro objects
  induction objects with
  | nil => intro st _; simp [allFrames]
  | cons o rest ih =>
    intro st hs
    have hrest := fun o' h' => hs o' (List.mem_cons_of_mem _ h')
    rw [List.foldl_cons]
    have hall : allFrames (o :: rest)
        = (match o.act with
           | none => []
           | some act => act.fcurves.flatMap
               (fun fc => fc.keyframe_points.map Prod.fst)) ++ allFrames rest := by
      simp [allFrames]
    rw [hall]
    cases hact : o.act with
    | none =>
      simp only [hact]
      rw [List.nil_append]
      exact ih st hrest
    | some act =>
      simp only [hact]
      rw [List.foldl_append, List.foldl_append]
      rw [far_curve_fold act.fcurves st
        (fun fc hfc => hs o (List.mem_cons_self _ _) act hact fc hfc)]
      exact ih _ hrest

theorem find_animation_range_eq (objects : List BObj)
    (hsorted : ∀ o ∈ objects, ∀ act, o.act = some act → ∀ fc ∈ act.fcurves,
      (fc.keyframe_points.map Prod.fst).Pairwise (fun x y => x ≤ y)) :
    find_animation_range objects
      = ((allFrames objects).foldl optMin none,
         (allFrames objects).foldl optMax none) := by
  unfold find_animation_range
  exact far_fold_general objects (none, none) hsorted

theorem foldl_optMin_spec_general :
    ∀ (l : List Int) (b : Int),
      ∃ m, l.foldl optMin (some b) = some m ∧ (m = b ∨ m ∈ l) ∧ m ≤ b ∧
        ∀ x ∈ l, m ≤ x := by
  intro l
  induction l with
  | nil => intro b; exact ⟨b, rfl, Or.inl rfl, le_refl _, by simp⟩
  | cons x xs ih =>
    intro b
    rw [List.foldl_cons]
    obtain ⟨m, h1, h2, h3, h4⟩ := ih (min b x)
    refine ⟨m, h1, ?_, le_trans h3 (min_le_left _ _), ?_⟩
    · rcases h2 with rfl | h2
      · rcases le_total b x with hbx | hbx
        · exact Or.inl (min_eq_left hbx)
        · exact Or.inr (by rw [min_eq_right hbx]; exact List.mem_cons_self _ _)
      · exact Or.inr (List.mem_cons_of_mem _ h2)
    · intro y hy
      rcases List.mem_cons.mp hy with rfl | hy'
      · exact le_trans h3 (min_le_right _ _)
      · exact h4 y hy'

theorem foldl_optMin_spec (l : List Int) (h : l ≠ []) :
    ∃ m, l.foldl optMin none = some m ∧ m ∈ l ∧ ∀ x ∈ l, m ≤ x := by
  cases l with
  | nil => exact absurd rfl h
  | cons x xs =>
    rw [List.foldl_cons]
    obtain ⟨m, h1, h2, h3, h4⟩ := foldl_optMin_spec_general xs x
    refine ⟨m, h1, ?_, ?_⟩
    · rcases h2 with rfl | h2
      · exact List.mem_cons_self _ _
      · exact List.mem_cons_of_mem _ h2
    · intro y hy
      rcases List.mem_cons.mp hy with rfl | hy'
      · exact h3
      · exact h4 y hy'

theorem foldl_optMax_spec_general :
    ∀ (l : List Int) (b : Int),
      ∃ m, l.foldl optMax (some b) = some m ∧ (m = b ∨ m ∈ l) ∧ b ≤ m ∧
        ∀ x ∈ l, x ≤ m := by
  intro l
  induction l with
  | nil => intro b; exact ⟨b, rfl, Or.inl rfl, le_refl _, by simp⟩
  | cons x xs ih =>
    intro b
    rw [List.foldl_cons]
    obtain ⟨m, h1, h2, h3, h4⟩ := ih (max b x)
    refine ⟨m, h1, ?_, le_trans (le_max_left _ _) h3, ?_⟩
    · rcases h2 with rfl | h2
      · rcases le_total b x with hbx | hbx
        · exact Or.inr (by rw [max_eq_right hbx]; exact List.mem_cons_self _ _)
        · exact Or.inl (max_eq_left hbx)
      · exact Or.inr (List.mem_cons_of_mem _ h2)
    · intro y hy
      rcases List.mem_cons.mp hy with rfl | hy'
      · exact le_trans (le_max_right _ _) h3
      · exact h4 y hy'

theorem foldl_optMax_spec (l : List Int) (h : l ≠ []) :
    ∃ M, l.foldl optMax none = some M ∧ M ∈ l ∧ ∀ x ∈ l, x ≤ M := by
  cases l with
  | nil => exact absurd rfl h
  | cons x xs =>
    rw [List.foldl_cons]
    obtain ⟨M, h1, h2, h3, h4⟩ := foldl_optMax_spec_general xs x
    refine ⟨M, h1, ?_, ?_⟩
    · rcases h2 with rfl | h2
      · exact List.mem_cons_self _ _
      · exact List.mem_cons_of_mem _ h2
    · intro y hy
      rcases List.mem_cons.mp hy with rfl | hy'
      · exact h3
      · exact h4 y hy'

/-- C5: for objects whose keyframe curves are ordered sequences of
`(frame, value)` pairs with at least one keyframe present overall, the
animation range finder returns exactly the pair (global minimum frame,
global maximum frame) over all curves of all objects that have an
action. -/
theorem find_animation_range_spec (objects : List BObj)
    (hsorted : ∀ o ∈ objects, ∀ act, o.act = some act → ∀ fc ∈ act.fcurves,
      (fc.keyframe_points.map Prod.fst).Pairwise (fun x y => x ≤ y))
    (hne : allFrames objects ≠ []) :
    ∃ m M, find_animation_range objects = (some m, some M) ∧
      m ∈ allFrames objects ∧ M ∈ allFrames objects ∧
      ∀ x ∈ allFrames objects, m ≤ x ∧ x ≤ M := by
  rw [find_animation_range_eq objects hsorted]
  obtain ⟨m, hm1, hm2, hm3⟩ := foldl_optMin_spec _ hne
  obtain ⟨M, hM1, hM2, hM3⟩ := foldl_optMax_spec _ hne
  exact ⟨m, M, by rw [hm1, hM1], hm2, hM2, fun x hx => ⟨hm3 x hx, hM3 x hx⟩⟩

/-- C5 witness: on the witness scene the range finder returns the global
minimum and maximum keyframe frames. -/
theorem find_animation_range_spec_witness :
    (allFrames [w_root, w_arm, w_leg] ≠ []) ∧
    (∃ m M, find_animation_range [w_root, w_arm, w_leg] = (some m, some M) ∧
      m ∈ allFrames [w_root, w_arm, w_leg] ∧
      M ∈ allFrames [w_root, w_arm, w_leg] ∧
      ∀ x ∈ allFrames [w_root, w_arm, w_leg], m ≤ x ∧ x ≤ M) :=
  ⟨by decide, find_animation_range_spec [w_root, w_arm, w_leg]
    (by decide) (by decide)⟩

/-! ## Claim C3: cancellation conditions of `execute` -/

/-- C3: `execute` returns `CANCELLED` exactly when a prerequisite is
missing — the selection is empty, no root object can be determined, or the
root's hierarchy contains no object with an action — and in each of these
cases no master action has been created. -/
theorem execute_cancelled_iff (selected : List BObj) (data_objects : List String)
    (orig_active : Option String) (orig_area : String)
    (scene_start scene_end scene_frame : Int) (frame_margin : Nat)
    (keep : Bool) (master_name : String)
    (fail : String → String → Nat → Bool) :
    ((execute selected data_objects orig_active orig_area scene_start scene_end
        scene_frame frame_margin keep master_name fail).status
      = Status.CANCELLED ↔
      (selected = [] ∨ find_root_object selected = none ∨
        ∃ root, find_root_object selected = some root ∧
          (get_hierarchy_objects root).filter (fun o => o.act.isSome) = [])) ∧
    ((execute selected data_objects orig_active orig_area scene_start scene_end
        scene_frame frame_margin keep master_name fail).status
      = Status.CANCELLED →
      (execute selected data_objects orig_active orig_area scene_start scene_end
        scene_frame frame_margin keep master_name fail).actions_created = []) := by
  cases selected with
  | nil =>
    refine ⟨?_, fun _ => rfl⟩
    simp [execute, exec_cancelled]
  | cons s0 rest =>
    cases hfr : find_root_object (s0 :: rest) with
    | none =>
      refine ⟨?_, fun _ => ?_⟩
      · simp [execute, hfr, exec_cancelled]
      · simp [execute, hfr, exec_cancelled]
    | some root =>
      by_cases hemp :
          ((get_hierarchy_objects root).filter (fun o => o.act.isSome)).isEmpty
      · have hnil : (get_hierarchy_objects root).filter (fun o => o.act.isSome)
            = [] := by
          simpa using hemp
        refine ⟨⟨fun _ => Or.inr (Or.inr ⟨root, rfl, hnil⟩), fun _ => ?_⟩,
          fun _ => ?_⟩
        · simp [execute, hfr, hemp, exec_cancelled]
        · simp [execute, hfr, hemp, exec_cancelled]
      · have hfin : (execute (s0 :: rest) data_objects orig_active orig_area
            scene_start scene_end scene_frame frame_margin keep master_name
            fail).status = Status.FINISHED := by
          simp [execute, hfr, hemp, create_standalone_action]
        refine ⟨⟨fun hst => ?_, fun hdisj => ?_⟩, fun hst => ?_⟩
        · rw [hfin] at hst
          exact absurd hst (by simp)
        · exfalso
          rcases hdisj with h | h | ⟨root', hr', hnil'⟩
        
          · exact absurd h (by simp)
          · simp at h
          · obtain rfl : root = root' := by simpa using hr'
            rw [hnil'] at hemp
            simp at hemp
        · rw [hfin] at hst
          exact absurd hst (by simp)

/-- C3 witness: on an empty selection `execute` cancels without creating
any action. -/
theorem execute_cancelled_iff_witness :
    (execute [] w_data none "AREA" 1 250 0 0 true "Master"
      (fun _ _ _ => false)).status = Status.CANCELLED ∧
    (execute [] w_data none "AREA" 1 250 0 0 true "Master"
      (fun _ _ _ => false)).actions_created = [] := by
  have h := execute_cancelled_iff [] w_data none "AREA" 1 250 0 0 true "Master"
    (fun _ _ _ => false)
  exact ⟨h.1.mpr (Or.inl rfl), h.2 (h.1.mpr (Or.inl rfl))⟩

/-! ## Claim C8: frame range fallback, margin, and clamping -/

/-- C8: if no keyframe exists on any curve of the animated objects,
`execute` keeps the scene's existing `frame_start`/`frame_end` and applies
no margin; otherwise it sets the range to the detected min/max with the
margin applied and the start clamped, so the computed start frame is at
least 1 for every margin. -/
theorem execute_frame_range (selected : List BObj) (data_objects : List String)
    (orig_active : Option String) (orig_area : String)
    (scene_start scene_end scene_frame : Int) (frame_margin : Nat)
    (keep : Bool) (master_name : String) (fail : String → String → Nat → Bool)
    (root : BObj) (hroot : find_root_object selected = some root)
    (hsorted : ∀ o ∈ (get_hierarchy_objects root).filter
        (fun o => o.act.isSome), ∀ act, o.act = some act →
      ∀ fc ∈ act.fcurves,
        (fc.keyframe_points.map Prod.fst).Pairwise (fun x y => x ≤ y))
    (hanim : (get_hierarchy_objects root).filter (fun o => o.act.isSome) ≠ []) :
    (allFrames ((get_hierarchy_objects root).filter (fun o => o.act.isSome))
        = [] →
      (execute selected data_objects orig_active orig_area scene_start
        scene_end scene_frame frame_margin keep master_name fail).frame_start
        = scene_start ∧
      (execute selected data_objects orig_active orig_area scene_start
        scene_end scene_frame frame_margin keep master_name fail).frame_end
        = scene_end) ∧
    (allFrames ((get_hierarchy_objects root).filter (fun o => o.act.isSome))
        ≠ [] →
      ∃ m M, find_animation_range
          ((get_hierarchy_objects root).filter (fun o => o.act.isSome))
          = (some m, some M) ∧
        (execute selected data_objects orig_active orig_area scene_start
          scene_end scene_frame frame_margin keep master_name fail).frame_start
          = max 1 (m - (frame_margin : Int)) ∧
        (execute selected data_objects orig_active orig_area scene_start
          scene_end scene_frame frame_margin keep master_name fail).frame_end
          = M + (frame_margin : Int) ∧
        1 ≤ (execute selected data_objects orig_active orig_area scene_start
          scene_end scene_frame frame_margin keep master_name
          fail).frame_start) := by
  cases selected with
  | nil =>
    rw [show find_root_object [] = none from rfl] at hroot
    exact absurd hroot (by simp)
  | cons s0 rest =>
    have hempf : ((get_hierarchy_objects root).filter
        (fun o => o.act.isSome)).isEmpty = false := by
      simpa using hanim
    constructor
    · intro hnil
      have hfar : find_animation_range
          ((get_hierarchy_objects root).filter (fun o => o.act.isSome))
          = (none, none) := by
        rw [find_animation_range_eq _ hsorted, hnil]
        rfl
      constructor
      · simp [execute, hroot, hempf, hfar]
      · simp [execute, hroot, hempf, hfar]
    · intro hne
      obtain ⟨m, M, hfar, _, _, _⟩ :=
        find_animation_range_spec _ hsorted hne
      refine ⟨m, M, hfar, ?_, ?_, ?_⟩
      · simp [execute, hroot, hempf, hfar]
      · simp [execute, hroot, hempf, hfar]
      · have h1 : (execute (s0 :: rest) data_objects orig_active orig_area
            scene_start scene_end scene_frame frame_margin keep master_name
            fail).frame_start = max 1 (m - (frame_margin : Int)) := by
          simp [execute, hroot, hempf, hfar]
        rw [h1]
        exact le_max_left _ _

/-- C8 witness: on the witness scene (keyframes from 1 to 6, margin 3) the
range becomes `max 1 (1-3) = 1` to `6+3 = 9`. -/
theorem execute_frame_range_witness :
    (find_root_object [w_root] = some w_root ∧
      (get_hierarchy_objects w_root).filter (fun o => o.act.isSome) ≠ [] ∧
      allFrames ((get_hierarchy_objects w_root).filter (fun o => o.act.isSome))
        ≠ []) ∧
    (∃ m M, find_animation_range
        ((get_hierarchy_objects w_root).filter (fun o => o.act.isSome))
        = (some m, some M) ∧
      (execute [w_root] w_data (some "Arm") "AREA" 100 200 42 3 true "Master"
        (fun _ _ _ => false)).frame_start = max 1 (m - (3 : Int)) ∧
      (execute [w_root] w_data (some "Arm") "AREA" 100 200 42 3 true "Master"
        (fun _ _ _ => false)).frame_end = M + (3 : Int) ∧
      1 ≤ (execute [w_root] w_data (some "Arm") "AREA" 100 200 42 3 true
        "Master" (fun _ _ _ => false)).frame_start) :=
  ⟨⟨rfl,
    by
      intro hh
      have hb : ((get_hierarchy_objects w_root).filter
          (fun o => o.act.isSome)).isEmpty = false := by decide
      rw [hh] at hb
      simp at hb,
    by decide⟩,
    (execute_frame_range [w_root] w_data (some "Arm") "AREA" 100 200 42 3 true
      "Master" (fun _ _ _ => false) w_root rfl (by decide)
      (by
        intro hh
        have hb : ((get_hierarchy_objects w_root).filter
            (fun o => o.act.isSome)).isEmpty = false := by decide
        rw [hh] at hb
        simp at hb)).2
      (by decide)⟩

/-! ## Claim C10: restoration of editor state -/

/-- C10: on every non-cancelled run, `execute` restores the editor state it
touched: the selection (those originally selected objects still present in
`bpy.data.objects`), the active object (when the original active object
still exists), the editor area type, and the scene's current frame all
equal their values from before the operation. -/
theorem execute_restores (selected : List BObj) (data_objects : List String)
    (orig_active : Option String) (orig_area : String)
    (scene_start scene_end scene_frame : Int) (frame_margin : Nat)
    (keep : Bool) (master_name : String) (fail : String → String → Nat → Bool)
    (h : (execute selected data_objects orig_active orig_area scene_start
      scene_end scene_frame frame_margin keep master_name fail).status
      ≠ Status.CANCELLED) :
    (execute selected data_objects orig_active orig_area scene_start scene_end
        scene_frame frame_margin keep master_name fail).selected_names
      = (selected.map BObj.name).filter (fun n => data_objects.contains n) ∧
    (∀ a, orig_active = some a → data_objects.contains a = true →
      (execute selected data_objects orig_active orig_area scene_start
        scene_end scene_frame frame_margin keep master_name fail).active
        = some a) ∧
    (execute selected data_objects orig_active orig_area scene_start scene_end
        scene_frame frame_margin keep master_name fail).area = orig_area ∧
    (execute selected data_objects orig_active orig_area scene_start scene_end
        scene_frame frame_margin keep master_name fail).frame_current
      = scene_frame := by
  cases selected with
  | nil =>
    exact absurd (by simp [execute, exec_cancelled]) h
  | cons s0 rest =>
    cases hfr : find_root_object (s0 :: rest) with
    | none =>
      exact absurd (by simp [execute, hfr, exec_cancelled]) h
    | some root =>
      by_cases hemp : ((get_hierarchy_objects root).filter
          (fun o => o.act.isSome)).isEmpty
      · exact absurd (by simp [execute, hfr, hemp, exec_cancelled]) h
      · refine ⟨?_, ?_, ?_, ?_⟩
        · simp [execute, hfr, hemp]
        · intro a ha hc
          subst ha
          simp [execute, hfr, hemp, hc]
        · simp [execute, hfr, hemp]
        · simp [execute, hfr, hemp, create_standalone_action]

/-- C10 witness: on the witness scene the selection, active object, area
and current frame are all restored. -/
theorem execute_restores_witness :
    ((execute [w_root] w_data (some "Arm") "AREA" 100 200 42 3 true "Master"
      (fun _ _ _ => false)).status ≠ Status.CANCELLED) ∧
    ((execute [w_root] w_data (some "Arm") "AREA" 100 200 42 3 true "Master"
        (fun _ _ _ => false)).selected_names
      = ([w_root].map BObj.name).filter (fun n => w_data.contains n) ∧
     (∀ a, (some "Arm" : Option String) = some a → w_data.contains a = true →
       (execute [w_root] w_data (some "Arm") "AREA" 100 200 42 3 true "Master"
         (fun _ _ _ => false)).active = some a) ∧
     (execute [w_root] w_data (some "Arm") "AREA" 100 200 42 3 true "Master"
       (fun _ _ _ => false)).area = "AREA" ∧
     (execute [w_root] w_data (some "Arm") "AREA" 100 200 42 3 true "Master"
       (fun _ _ _ => false)).frame_current = 42) :=
  ⟨by decide, execute_restores [w_root] w_data (some "Arm") "AREA" 100 200 42 3
    true "Master" (fun _ _ _ => false) (by decide)⟩

/-! ## Claim C7: per-channel failure isolation -/

/-- C7: when the host call creating a driver fails for one channel, that
channel gets an individual warning, any other channel whose host call
succeeds still receives its driver, and the operation still completes with
`FINISHED`. -/
theorem create_standalone_action_driver_failure (master_name : String)
    (keep : Bool) (fail : String → String → Nat → Bool)
    (data_objects : List String) (scene_frame : Int) (root : BObj)
    (animated : List BObj)
    (o1 : BObj) (act1 : BAction) (fc1 : FCurve)
    (ho1 : o1 ∈ animated) (hact1 : o1.act = some act1)
    (hfc1 : fc1 ∈ act1.fcurves)
    (o2 : BObj) (act2 : BAction) (fc2 : FCurve)
    (ho2 : o2 ∈ animated) (hact2 : o2.act = some act2)
    (hfc2 : fc2 ∈ act2.fcurves)
    (hnames : (animated.map BObj.name).Nodup)
    (hkeys1 : (act1.fcurves.map (fun f => (f.data_path, f.array_index))).Nodup)
    (hkeys2 : (act2.fcurves.map (fun f => (f.data_path, f.array_index))).Nodup)
    (h1root : o1.name ≠ root.name) (h1data : o1.name ∈ data_objects)
    (h1T : fc1.data_path ∈ transform_props)
    (h1fail : fail o1.name fc1.data_path fc1.array_index = true)
    (h2root : o2.name ≠ root.name) (h2data : o2.name ∈ data_objects)
    (h2T : fc2.data_path ∈ transform_props)
    (h2fail : fail o2.name fc2.data_path fc2.array_index = false) :
    ((o1.name, fc1.data_path, fc1.array_index) : Warn) ∈
      (create_standalone_action master_name keep fail data_objects scene_frame
        root animated).warnings ∧
    (⟨o2.name, fc2.data_path, fc2.array_index, "value",
        quote_path (prop_key (clean_name o2.name) fc2.data_path
          fc2.array_index)⟩ : Driver) ∈
      (create_standalone_action master_name keep fail data_objects scene_frame
        root animated).drivers ∧
    (create_standalone_action master_name keep fail data_objects scene_frame
      root animated).status = Status.FINISHED := by
  have hch1 := channel_of_fcurve animated o1 act1 fc1 ho1 hact1 hfc1 hnames hkeys1
  have hch2 := channel_of_fcurve animated o2 act2 fc2 ho2 hact2 hfc2 hnames hkeys2
  refine ⟨?_, ?_, rfl⟩
  · rw [csa_warnings_eq]
    refine List.mem_filterMap.mpr ⟨_, hch1, ?_⟩
    simp [warn_of_channel, h1root, h1data, h1T, h1fail]
  · rw [csa_drivers_eq]
    refine List.mem_filterMap.mpr ⟨_, hch2, ?_⟩
    simp [driver_of_channel, h2root, h2data, h2T, h2fail]

/-- C7 witness: with a host oracle that fails exactly on object `Arm`, the
`Arm` channel yields a warning while `Leg`'s driver is still created and
the run finishes. -/
theorem create_standalone_action_driver_failure_witness :
    ((("Arm" : String), ("location" : String), (2 : Nat)) : Warn) ∈
      (create_standalone_action "Master" true (fun n _ _ => n == "Arm") w_data
        0 w_root [w_root, w_arm, w_leg]).warnings ∧
    (⟨"Leg", "scale", 1, "value",
        quote_path (prop_key (clean_name "Leg") "scale" 1)⟩ : Driver) ∈
      (create_standalone_action "Master" true (fun n _ _ => n == "Arm") w_data
        0 w_root [w_root, w_arm, w_leg]).drivers ∧
    (create_standalone_action "Master" true (fun n _ _ => n == "Arm") w_data 0
      w_root [w_root, w_arm, w_leg]).status = Status.FINISHED :=
  create_standalone_action_driver_failure "Master" true
    (fun n _ _ => n == "Arm") w_data 0 w_root [w_root, w_arm, w_leg]
    w_arm w_act_arm ⟨"location", 2, [(3, 7)]⟩
    (List.mem_cons_of_mem _ (List.mem_cons_self _ _)) rfl (by simp [w_act_arm])
    w_leg w_act_leg ⟨"scale", 1, [(2, 4), (6, 9)]⟩
    (List.mem_cons_of_mem _ (List.mem_cons_of_mem _ (List.mem_cons_self _ _)))
    rfl (by simp [w_act_leg])
    (by decide) (by decide) (by decide) (by decide)
    (by decide) (by decide) (by decide)
    (by decide) (by decide) (by decide) (by decide)

/-! ## Claim C9: keeping or removing original actions -/

/-- C9: when `keep_original_actions` is true every non-root animated
object keeps its action and NLA tracks unchanged; their removal (clearing
NLA tracks and unassigning the action) happens only when the option is
false; and the root is assigned the new master action in either case. -/
theorem create_standalone_action_keep (master_name : String) (keep : Bool)
    (fail : String → String → Nat → Bool) (data_objects : List String)
    (scene_frame : Int) (root : BObj) (animated : List BObj) :
    (keep = true → ∀ o ∈ animated, o.name ≠ root.name →
      (⟨o.name, o.act.map BAction.name, o.nla_tracks⟩ : ObjState) ∈
        (create_standalone_action master_name keep fail data_objects
          scene_frame root animated).objects_after) ∧
    (keep = false → ∀ o ∈ animated, o.name ≠ root.name → o.act.isSome →
      (⟨o.name, none, []⟩ : ObjState) ∈
        (create_standalone_action master_name keep fail data_objects
          scene_frame root animated).objects_after) ∧
    (create_standalone_action master_name keep fail data_objects scene_frame
      root animated).root_act_after = master_name := by
  refine ⟨?_, ?_, rfl⟩
  · rintro rfl o ho hne
    have : obj_state_after true root.name master_name o
        = ⟨o.name, o.act.map BAction.name, o.nla_tracks⟩ := by
      simp [obj_state_after, hne]
    exact this ▸ List.mem_map_of_mem _ ho
  · rintro rfl o ho hne hsome
    have : obj_state_after false root.name master_name o
        = ⟨o.name, none, []⟩ := by
      simp [obj_state_after, hne, hsome]
    exact this ▸ List.mem_map_of_mem _ ho

/-- C9 witness: with `keep = true` the child `Arm` keeps its action and NLA
track; with `keep = false` it loses both; the root action becomes the
master action in both runs. -/
theorem create_standalone_action_keep_witness :
    ((⟨"Arm", some "ArmAct", ["TrackA"]⟩ : ObjState) ∈
      (create_standalone_action "Master" true (fun _ _ _ => false) w_data 0
        w_root [w_root, w_arm, w_leg]).objects_after) ∧
    ((⟨"Arm", none, []⟩ : ObjState) ∈
      (create_standalone_action "Master" false (fun _ _ _ => false) w_data 0
        w_root [w_root, w_arm, w_leg]).objects_after) ∧
    (create_standalone_action "Master" true (fun _ _ _ => false) w_data 0
      w_root [w_root, w_arm, w_leg]).root_act_after = "Master" := by
  have h1 := create_standalone_action_keep "Master" true (fun _ _ _ => false)
    w_data 0 w_root [w_root, w_arm, w_leg]
  have h2 := create_standalone_action_keep "Master" false (fun _ _ _ => false)
    w_data 0 w_root [w_root, w_arm, w_leg]
  refine ⟨?_, ?_, h1.2.2⟩
  · exact h1.1 rfl w_arm (List.mem_cons_of_mem _ (List.mem_cons_self _ _))
      (by decide)
  · exact h2.2.1 rfl w_arm (List.mem_cons_of_mem _ (List.mem_cons_self _ _))
      (by decide) (by decide)
